import Mathlib

/-!
Verification development for the jot-mcp persistence and query layer.

The definitions below are a shallow embedding of the repository's
TypeScript source:

* `JotMcp.Repo`    — `src/repository.ts` (numeric-id revision: the
  `JotRepository` class whose jots carry `updated_at`), executed against
  the SQLite schema of `src/database.ts` (`createSchema`): tables
  `contexts`, `jots`, `tags` (UNIQUE(jot_id, tag)), `metadata`
  (UNIQUE(jot_id, key)), with `foreign_keys = ON` and ON DELETE CASCADE.
  better-sqlite3 runs each prepared statement in its own implicit
  transaction, so a sequence of `.run` calls commits statement by
  statement; a constraint violation raises and leaves the earlier
  statements committed.  The embedding makes that explicit: every
  operation returns the store as left behind, also on failure.
* `JotMcp.RepoV0`  — the UUID-id revision of `src/repository.ts`
  (contexts carry a `branch` column, ids are `randomUUID()` strings).
* `JotMcp.Service` — `src/service.ts` (`calculateExpiration`,
  `detectContextName`, context choice in `createJot`) and
  `src/config.ts` (`DEFAULT_TTL_DAYS`).

Timestamps (`Date.now()`) are modelled as `Int` milliseconds and passed
explicitly.  JavaScript numbers that can be `NaN` are modelled by
`JSNum`; JS truthiness of strings/options is spelled out at each use.
-/

namespace JotMcp

/-- A JavaScript `number` as it flows through the search options: either a
real (integral) value or `NaN` (e.g. `new Date("garbage").getTime()`). -/
inductive JSNum where
  | nan : JSNum
  | int : Int → JSNum
deriving DecidableEq

/-- JS truthiness of a number: `NaN` and `0` are falsy. -/
def JSNum.truthy : JSNum → Bool
  | .nan => false
  | .int n => n != 0

namespace Repo

/-- A row of the `contexts` table (schema of `database.ts`:
`id, name UNIQUE, repository, created_at, updated_at`). -/
structure ContextRow where
  id : Nat
  name : String
  repository : Option String
  createdAt : Int
  updatedAt : Int
deriving DecidableEq

/-- A row of the `jots` table
(`id, context_id, message, created_at, updated_at, expires_at`). -/
structure JotRow where
  id : Nat
  contextId : Nat
  message : String
  createdAt : Int
  updatedAt : Int
  expiresAt : Option Int
deriving DecidableEq

/-- A row of the `tags` table (`jot_id, tag`, UNIQUE(jot_id, tag)). -/
structure TagRow where
  jotId : Nat
  tag : String
deriving DecidableEq

/-- A row of the `metadata` table (`jot_id, key, value`,
UNIQUE(jot_id, key)). -/
structure MetaRow where
  jotId : Nat
  key : String
  value : String
deriving DecidableEq

/-- The SQLite database state: the four tables in rowid (insertion)
order, plus the AUTOINCREMENT counters for the two id columns. -/
structure Store where
  contexts : List ContextRow
  jots : List JotRow
  tags : List TagRow
  metadata : List MetaRow
  nextContextId : Nat
  nextJotId : Nat
deriving DecidableEq

/-- A hydrated `JotEntry` as returned by `mapJot` in `repository.ts`:
the jot row plus its tag list and metadata key/value pairs. -/
structure JotEntry where
  id : Nat
  contextId : Nat
  message : String
  createdAt : Int
  updatedAt : Int
  expiresAt : Option Int
  tags : List String
  metadata : List (String × String)
deriving DecidableEq

/-- `mapJot` (repository.ts): hydrate a jot row with
`SELECT tag FROM tags WHERE jot_id = ?` and
`SELECT key, value FROM metadata WHERE jot_id = ?` (rowid order). -/
def mapJot (s : Store) (j : JotRow) : JotEntry :=
  { id := j.id
    contextId := j.contextId
    message := j.message
    createdAt := j.createdAt
    updatedAt := j.updatedAt
    expiresAt := j.expiresAt
    tags := (s.tags.filter fun r => decide (r.jotId = j.id)).map TagRow.tag
    metadata := (s.metadata.filter fun r => decide (r.jotId = j.id)).map
      fun r => (r.key, r.value) }

/-- `getJot` (repository.ts): `SELECT … FROM jots WHERE id = ?`,
hydrated through `mapJot`. -/
def getJot (s : Store) (id : Nat) : Option JotEntry :=
  (s.jots.find? fun j => decide (j.id = id)).map (mapJot s)

/-- `UPDATE contexts SET updated_at = ? WHERE id = ?`. -/
def touchContext (s : Store) (contextId : Nat) (now : Int) : Store :=
  { s with contexts := s.contexts.map fun c =>
      if c.id = contextId then { c with updatedAt := now } else c }

/-- The tag-insert loop of `createJot`/`updateJot`: one
`INSERT INTO tags (jot_id, tag) VALUES (?, ?)` per list element, each in
its own implicit transaction.  A row violating UNIQUE(jot_id, tag)
raises: the result flag is `false` and the store keeps exactly the
inserts committed before the failure. -/
def insertTags (s : Store) (jotId : Nat) : List String → Store × Bool
  | [] => (s, true)
  | t :: rest =>
    if ∃ r ∈ s.tags, r.jotId = jotId ∧ r.tag = t then (s, false)
    else insertTags { s with tags := s.tags ++ [⟨jotId, t⟩] } jotId rest

/-- The metadata-insert loop: one
`INSERT INTO metadata (jot_id, key, value) VALUES (?, ?, ?)` per entry
(`Object.entries` order), failing on UNIQUE(jot_id, key). -/
def insertMetadata (s : Store) (jotId : Nat) :
    List (String × String) → Store × Bool
  | [] => (s, true)
  | (k, v) :: rest =>
    if ∃ r ∈ s.metadata, r.jotId = jotId ∧ r.key = k then (s, false)
    else insertMetadata { s with metadata := s.metadata ++ [⟨jotId, k, v⟩] }
      jotId rest

/-- `createJot` (repository.ts).  Statement sequence, each committed on
its own: insert the jot row (fails on a dangling `context_id` foreign
key), insert each tag, insert each metadata entry, bump the owning
context's `updated_at`, re-read through `getJot`.  There is no
surrounding transaction; `none` means the underlying call threw, and the
returned store is whatever had been committed at that point. -/
def createJot (s : Store) (now : Int) (contextId : Nat) (message : String)
    (expiresAt : Option Int) (tags : List String)
    (metadata : List (String × String)) : Store × Option JotEntry :=
  if ∃ c ∈ s.contexts, c.id = contextId then
    match insertTags
        { s with
          jots := s.jots ++
            [⟨s.nextJotId, contextId, message, now, now, expiresAt⟩]
          nextJotId := s.nextJotId + 1 }
        s.nextJotId tags with
    | (s2, false) => (s2, none)
    | (s2, true) =>
      match insertMetadata s2 s.nextJotId metadata with
      | (s3, false) => (s3, none)
      | (s3, true) =>
        (touchContext s3 contextId now,
         getJot (touchContext s3 contextId now) s.nextJotId)
  else (s, none)

/-- The `updates` argument of `updateJot`: a field is applied only when
provided (`!== undefined`).  `expiresAt`'s inner `Option` is the SQL
NULL (`expiresAt: null` clears the expiration). -/
structure JotUpdates where
  message : Option String := none
  expiresAt : Option (Option Int) := none
  tags : Option (List String) := none
  metadata : Option (List (String × String)) := none

/-- Outcome of `updateJot`: `notFound` models the early `return null`,
`failed` a raised constraint violation, `updated` the returned entry. -/
inductive UpdateResult where
  | notFound : UpdateResult
  | failed : UpdateResult
  | updated : JotEntry → UpdateResult
deriving DecidableEq

/-- The first statement of `updateJot`: when `message` or `expiresAt`
was provided, run
`UPDATE jots SET message = ?, expires_at = ?, updated_at = ? WHERE id = ?`,
filling omitted fields from the existing entry; otherwise no statement
runs. -/
def applyRowUpdate (existing : JotEntry) (now : Int) (id : Nat)
    (u : JotUpdates) (s : Store) : Store :=
  if u.message.isSome || u.expiresAt.isSome then
    { s with jots := s.jots.map fun j =>
        if j.id = id then
          { j with
            message := u.message.getD existing.message
            expiresAt := u.expiresAt.getD existing.expiresAt
            updatedAt := now }
        else j }
  else s

/-- The tag block of `updateJot`: when `tags` was provided,
`DELETE FROM tags WHERE jot_id = ?` then insert the new tags. -/
def tagsUpdateStep (s : Store) (id : Nat) :
    Option (List String) → Store × Bool
  | none => (s, true)
  | some ts =>
    insertTags { s with tags := s.tags.filter fun r => decide (¬ r.jotId = id) }
      id ts

/-- The metadata block of `updateJot`: when `metadata` was provided,
`DELETE FROM metadata WHERE jot_id = ?` then insert the new entries. -/
def metadataUpdateStep (s : Store) (id : Nat) :
    Option (List (String × String)) → Store × Bool
  | none => (s, true)
  | some kvs =>
    insertMetadata
      { s with metadata := s.metadata.filter fun r => decide (¬ r.jotId = id) }
      id kvs

/-- `updateJot` (repository.ts), statement by statement:
load the existing entry (`return null` if absent); conditionally update
the jot row; conditionally replace the tag rows; conditionally replace
the metadata rows; always bump the owning context's `updated_at`;
re-read the jot.  No transaction: a failing insert leaves the earlier
statements committed. -/
def updateJot (s : Store) (now : Int) (id : Nat) (u : JotUpdates) :
    Store × UpdateResult :=
  match getJot s id with
  | none => (s, .notFound)
  | some existing =>
    match tagsUpdateStep (applyRowUpdate existing now id u s) id u.tags with
    | (s2, false) => (s2, .failed)
    | (s2, true) =>
      match metadataUpdateStep s2 id u.metadata with
      | (s3, false) => (s3, .failed)
      | (s3, true) =>
        match getJot (touchContext s3 existing.contextId now) id with
        | some j => (touchContext s3 existing.contextId now, .updated j)
        | none => (touchContext s3 existing.contextId now, .notFound)

/-- `deleteExpiredJots` (repository.ts):
`DELETE FROM jots WHERE expires_at IS NOT NULL AND expires_at <= ?`
with `? = Date.now()`; `ON DELETE CASCADE` removes the tag and metadata
rows of the deleted jots; returns `result.changes`. -/
def jotExpired (now : Int) (j : JotRow) : Bool :=
  match j.expiresAt with
  | some t => decide (t ≤ now)
  | none => false

def deleteExpiredJots (s : Store) (now : Int) : Store × Nat :=
  let removed := s.jots.filter (jotExpired now)
  let s' : Store :=
    { s with
      jots := s.jots.filter fun j => ! jotExpired now j
      tags := s.tags.filter fun r => ! removed.any fun j => j.id == r.jotId
      metadata := s.metadata.filter fun r => ! removed.any fun j => j.id == r.jotId }
  (s', removed.length)

/-- The search options record of `types.ts`; numeric fields keep their
JS representation so that `NaN` bounds (from `new Date(bad).getTime()`
in `handlers.ts`) and the truthiness tests of `searchJots` are modelled
faithfully. -/
structure SearchOptions where
  contextId : Option Nat := none
  query : Option String := none
  tags : Option (List String) := none
  fromDate : Option JSNum := none
  toDate : Option JSNum := none
  includeExpired : Option Bool := none
  limit : Option JSNum := none

/-- The tokeniser underlying the FTS5 index over `message`: maximal
alphanumeric runs, case-folded.  Models the index's behaviour for plain
term queries (the only form the development relies on). -/
def tokenChars : List Char → List (List Char)
  | [] => []
  | c :: rest =>
    if c.isAlphanum then
      match tokenChars rest with
      | [] => [[c.toLower]]
      | t :: ts =>
        match rest with
        | [] => [[c.toLower]]
        | d :: _ => if d.isAlphanum then (c.toLower :: t) :: ts
                    else [c.toLower] :: t :: ts
    else tokenChars rest

def tokensOf (s : String) : List String :=
  (tokenChars s.data).map String.mk

/-- `jots_fts MATCH ?` for whitespace-separated terms: every query token
must occur among the message's tokens. -/
def ftsMatch (q message : String) : Bool :=
  (tokensOf q).all fun t => (tokensOf message).contains t

/-- `options.tags && options.tags.length > 0`: the tag filter is active
only for a present, non-empty list. -/
def activeTags (o : SearchOptions) : Option (List String) :=
  match o.tags with
  | some ts => if ts.length > 0 then some ts else none
  | none => none

/-- The WHERE conditions of `searchJots` applied to one candidate row.
Each condition is added only when its option is JS-truthy, mirroring
`if (options.contextId)`, `if (options.query)`, `if (options.fromDate)`,
`if (options.toDate)`, `if (!options.includeExpired)`. -/
def rowMatches (now : Int) (o : SearchOptions) (j : JotRow) : Bool :=
  (match o.contextId with
   | some c => if c = 0 then true else decide (j.contextId = c)
   | none => true) &&
  (match o.query with
   | some q => if q = "" then true else ftsMatch q j.message
   | none => true) &&
  (match o.fromDate with
   | some d => if d.truthy then
       match d with
       | .int n => decide (n ≤ j.createdAt)
       | .nan => true
     else true
   | none => true) &&
  (match o.toDate with
   | some d => if d.truthy then
       match d with
       | .int n => decide (j.createdAt ≤ n)
       | .nan => true
     else true
   | none => true) &&
  (if o.includeExpired = some true then true
   else match j.expiresAt with
        | some t => decide (now < t)
        | none => true)

/-- `SELECT DISTINCT` over jot columns: drop duplicate rows. -/
def dedupRows : List JotRow → List JotRow
  | [] => []
  | j :: rest => if j ∈ rest then dedupRows rest else j :: dedupRows rest

/-- `ORDER BY j.created_at DESC` (ties in unspecified order; the model
uses a stable insertion sort). -/
def insertByCreatedDesc (j : JotRow) : List JotRow → List JotRow
  | [] => [j]
  | k :: rest =>
    if j.createdAt > k.createdAt then j :: k :: rest
    else k :: insertByCreatedDesc j rest

def sortByCreatedDesc : List JotRow → List JotRow
  | [] => []
  | j :: rest => insertByCreatedDesc j (sortByCreatedDesc rest)

/-- `LIMIT ?`: only appended when `options.limit` is truthy (so `0` and
`NaN` mean "no LIMIT clause"); SQLite treats a negative limit as
unconstrained. -/
def applyLimit (o : SearchOptions) (rows : List JotRow) : List JotRow :=
  match o.limit with
  | some (.int n) => if n = 0 then rows else if n < 0 then rows else rows.take n.toNat
  | some .nan => rows
  | none => rows

/-- The row set scanned by `searchJots`: the `jots` table, joined with
`tags` (one row per matching tag) when the tag filter is active.  The
FTS join never multiplies rows (one index row per jot), so it is folded
into `rowMatches`. -/
def searchBaseRows (s : Store) (o : SearchOptions) : List JotRow :=
  match activeTags o with
  | some ts =>
    s.jots.flatMap fun j =>
      (s.tags.filter fun r => decide (r.jotId = j.id) && ts.contains r.tag).map
        fun _ => j
  | none => s.jots

/-- `searchJots` before `mapJot` hydration: WHERE filter, DISTINCT,
ORDER BY created_at DESC, LIMIT. -/
def searchRows (s : Store) (now : Int) (o : SearchOptions) : List JotRow :=
  applyLimit o (sortByCreatedDesc (dedupRows ((searchBaseRows s o).filter (rowMatches now o))))

/-- `searchJots` (repository.ts): the query result mapped through
`mapJot`. -/
def searchJots (s : Store) (now : Int) (o : SearchOptions) : List JotEntry :=
  (searchRows s now o).map (mapJot s)

/-- The tag column of `SELECT tag FROM tags WHERE jot_id = ?` (the tag
collection `mapJot` attaches to a jot). -/
def tagsOfJot (s : Store) (id : Nat) : List String :=
  (s.tags.filter fun r => decide (r.jotId = id)).map TagRow.tag

/-- The key column of the metadata rows of one jot. -/
def keysOfJot (s : Store) (id : Nat) : List String :=
  (s.metadata.filter fun r => decide (r.jotId = id)).map MetaRow.key

/-- A store holding a single empty context (id 1, name "work"). -/
def ctxOnlyStore : Store :=
  { contexts := [⟨1, "work", none, 0, 0⟩]
    jots := []
    tags := []
    metadata := []
    nextContextId := 2
    nextJotId := 1 }

/-- A store holding one context and one jot (id 1, created and updated
at t=5) tagged `old-tag` with metadata `k ↦ v`. -/
def taggedStore : Store :=
  { contexts := [⟨1, "work", none, 0, 0⟩]
    jots := [⟨1, 1, "m", 5, 5, none⟩]
    tags := [⟨1, "old-tag"⟩]
    metadata := [⟨1, "k", "v"⟩]
    nextContextId := 2
    nextJotId := 2 }

/-- A store holding one jot whose expiration is exactly t=100. -/
def boundaryStore : Store :=
  { contexts := [⟨1, "work", none, 0, 0⟩]
    jots := [⟨1, 1, "boundary", 0, 0, some 100⟩]
    tags := []
    metadata := []
    nextContextId := 2
    nextJotId := 2 }

/-- A store holding one expired (t=50) and one permanent jot. -/
def searchStore : Store :=
  { contexts := [⟨1, "work", none, 0, 0⟩]
    jots := [⟨1, 1, "expired", 1, 1, some 50⟩, ⟨2, 1, "active", 2, 2, none⟩]
    tags := []
    metadata := []
    nextContextId := 2
    nextJotId := 3 }

end Repo

namespace RepoV0

/-- A row of the `contexts` table in the UUID revision of the schema:
`id TEXT, name UNIQUE, repository, branch, created_at, last_modified_at`. -/
structure ContextRow where
  id : String
  name : String
  repository : Option String
  branch : Option String
  createdAt : Int
  lastModifiedAt : Int
deriving DecidableEq

/-- The slice of the UUID-revision store that `upsertContext` touches:
the `contexts` table plus the `jots` table's `(id, context_id)` columns
(read by the `jot_count` aggregate). -/
structure Store where
  contexts : List ContextRow
  jotContexts : List (String × String)
deriving DecidableEq

/-- The hydrated `Context` produced by `mapContext`: the row plus the
live `COUNT(j.id)` of owned jots. -/
structure Context where
  id : String
  name : String
  repository : Option String
  branch : Option String
  createdAt : Int
  lastModifiedAt : Int
  jotCount : Nat
deriving DecidableEq

/-- `COUNT(j.id)` of the `LEFT JOIN jots j ON j.context_id = c.id`. -/
def jotCountOf (s : Store) (contextId : String) : Nat :=
  (s.jotContexts.filter fun p => decide (p.2 = contextId)).length

def mapContext (s : Store) (c : ContextRow) : Context :=
  { id := c.id
    name := c.name
    repository := c.repository
    branch := c.branch
    createdAt := c.createdAt
    lastModifiedAt := c.lastModifiedAt
    jotCount := jotCountOf s c.id }

/-- `getContext` (repository.ts, UUID revision):
`SELECT … FROM contexts c … WHERE c.id = ?`. -/
def getContext (s : Store) (id : String) : Option Context :=
  (s.contexts.find? fun c => decide (c.id = id)).map (mapContext s)

/-- `getContextByName`: `… WHERE c.name = ?`. -/
def getContextByName (s : Store) (name : String) : Option Context :=
  (s.contexts.find? fun c => decide (c.name = name)).map (mapContext s)

/-- JS `repository || null`: an empty string is falsy and is stored as
NULL. -/
def orNull (v : Option String) : Option String :=
  match v with
  | some x => if x = "" then none else some x
  | none => none

/-- `upsertContext(name, repository?, branch?)` (repository.ts, UUID
revision): return the existing context if the name is taken, otherwise
insert a row with a fresh `randomUUID()` id (passed in as `freshId`) and
re-read it.  The second component is the repository's return value
(`none` standing for the impossible `getContext(id)!` miss). -/
def upsertContext (s : Store) (freshId : String) (now : Int) (name : String)
    (repository branch : Option String) : Store × Option Context :=
  match getContextByName s name with
  | some existing => (s, some existing)
  | none =>
    let s' : Store :=
      { s with contexts := s.contexts ++
          [⟨freshId, name, orNull repository, orNull branch, now, now⟩] }
    (s', getContext s' freshId)

end RepoV0

namespace Service

/-- `DEFAULT_TTL_DAYS` (config.ts). -/
def DEFAULT_TTL_DAYS : Int := 14

/-- `calculateExpiration` (service.ts).  `none` for `ttlDays` covers both
JS `undefined` and `null` (the code treats them identically). -/
def calculateExpiration (now : Int) (ttlDays : Option Int) : Option Int :=
  match ttlDays with
  | none => some (now + DEFAULT_TTL_DAYS * 24 * 60 * 60 * 1000)
  | some d =>
    if d = 0 then none
    else some (now + d * 24 * 60 * 60 * 1000)

/-- JS `s.split(sep)` for a separator character: split on every
occurrence, keeping empty pieces. -/
def splitChars (sep : Char) : List Char → List (List Char)
  | [] => [[]]
  | c :: rest =>
    if c = sep then [] :: splitChars sep rest
    else match splitChars sep rest with
      | [] => [[c]]
      | p :: ps => (c :: p) :: ps

def jsSplit (s : String) (sep : Char) : List String :=
  (splitChars sep s.data).map String.mk

/-- `list.pop()` of a JS `split` result: the last piece (a `split` result
is never empty). -/
def lastPiece (pieces : List String) : String :=
  pieces.getLastD ""

def charsLeadWith : List Char → List Char → Bool
  | [], _ => true
  | _ :: _, [] => false
  | p :: ps, c :: cs => p = c && charsLeadWith ps cs

/-- JS `s.replace(pat, rep)` with a string pattern: replace only the
FIRST occurrence of `pat` (leaving later occurrences intact). -/
def replaceFirstChars (pat rep : List Char) : List Char → List Char
  | [] => []
  | c :: cs =>
    if charsLeadWith pat (c :: cs) then rep ++ (c :: cs).drop pat.length
    else c :: replaceFirstChars pat rep cs

def jsReplaceFirst (s pat rep : String) : String :=
  String.mk (replaceFirstChars pat.data rep.data s.data)

/-- `repoUrl.split('/').pop()?.replace('.git', '') || 'unknown'`
(service.ts, `detectContextName`): last path segment of the remote URL
with the first `.git` occurrence removed; an empty result is falsy,
giving `'unknown'`. -/
def repoNameOf (repoUrl : String) : String :=
  let name := jsReplaceFirst (lastPiece (jsSplit repoUrl '/')) ".git" ""
  if name = "" then "unknown" else name

/-- `cwd.split('/').pop() || cwd.split('\\').pop()` then the
degenerate-name test of `detectContextName`'s directory fallback. -/
def dirNameOf (cwd : String) : String :=
  let fwd := lastPiece (jsSplit cwd '/')
  if fwd = "" then lastPiece (jsSplit cwd '\\') else fwd

/-- `detectContextName` (service.ts).  `remote`/`branch` are the trimmed
outputs of the two git commands, `none` when the command failed (either
failure lands in the same `catch`); `cwd` is `process.cwd()`, `none`
when it threw. -/
def detectContextName (remote branch cwd : Option String) : String :=
  match remote, branch with
  | some repoUrl, some b =>
    let repoName := repoNameOf repoUrl
    if b = "main" ∨ b = "master" then repoName
    else repoName ++ "/" ++ b
  | _, _ =>
    match cwd with
    | some c =>
      let dirName := dirNameOf c
      if dirName ≠ "" ∧ dirName ≠ "/" ∧ dirName ≠ "\\" then dirName
      else "general"
    | none => "general"

/-- The context-name choice inside `createJot` (service.ts) when no
explicit context id is supplied: `else if (options.contextName)` — an
empty string is falsy and falls through to auto-detection. -/
def chooseContextName (contextName : Option String)
    (remote branch cwd : Option String) : String :=
  match contextName with
  | some n => if n = "" then detectContextName remote branch cwd else n
  | none => detectContextName remote branch cwd

/-- Spec-side notion, for comparison with the code: whether a string
ends with the given suffix (the spec reads the repository-name rule as
"strip a TRAILING repository-suffix token"). -/
def jsEndsWith (s pat : String) : Bool :=
  charsLeadWith pat.data.reverse s.data.reverse

end Service

namespace Repo

theorem mem_dedupRows {a : JotRow} {l : List JotRow} :
    a ∈ dedupRows l ↔ a ∈ l := by
  induction l with
  | nil => simp [dedupRows]
  | cons j rest ih =>
    by_cases h : j ∈ rest
    · rw [dedupRows, if_pos h]
      simp only [ih, List.mem_cons]
      constructor
      · exact Or.inr
      · rintro (rfl | ha)
        · exact h
        · exact ha
    · rw [dedupRows, if_neg h]
      simp [List.mem_cons, ih]

theorem mem_insertByCreatedDesc {a j : JotRow} {l : List JotRow} :
    a ∈ insertByCreatedDesc j l ↔ a = j ∨ a ∈ l := by
  induction l with
  | nil => simp [insertByCreatedDesc]
  | cons k rest ih =>
    by_cases h : j.createdAt > k.createdAt
    · rw [insertByCreatedDesc, if_pos h]
      simp [List.mem_cons]
    · rw [insertByCreatedDesc, if_neg h]
      simp [List.mem_cons, ih]
      tauto

theorem mem_sortByCreatedDesc {a : JotRow} {l : List JotRow} :
    a ∈ sortByCreatedDesc l ↔ a ∈ l := by
  induction l with
  | nil => simp [sortByCreatedDesc]
  | cons j rest ih =>
    rw [sortByCreatedDesc]
    simp [mem_insertByCreatedDesc, ih, List.mem_cons]

theorem mem_tagsOfJot {s : Store} {id : Nat} {t : String} :
    t ∈ tagsOfJot s id ↔ ∃ r ∈ s.tags, r.jotId = id ∧ r.tag = t := by
  simp only [tagsOfJot, List.mem_map, List.mem_filter, decide_eq_true_eq]
  constructor
  · rintro ⟨r, ⟨hr, hid⟩, ht⟩
    exact ⟨r, hr, hid, ht⟩
  · rintro ⟨r, hr, hid, ht⟩
    exact ⟨r, ⟨hr, hid⟩, ht⟩

theorem mem_keysOfJot {s : Store} {id : Nat} {k : String} :
    k ∈ keysOfJot s id ↔ ∃ r ∈ s.metadata, r.jotId = id ∧ r.key = k := by
  simp only [keysOfJot, List.mem_map, List.mem_filter, decide_eq_true_eq]
  constructor
  · rintro ⟨r, ⟨hr, hid⟩, ht⟩
    exact ⟨r, hr, hid, ht⟩
  · rintro ⟨r, hr, hid, ht⟩
    exact ⟨r, ⟨hr, hid⟩, ht⟩

/-- The tag-insert loop touches only the `tags` table. -/
theorem insertTags_other (ts : List String) :
    ∀ (s : Store) (id : Nat),
      (insertTags s id ts).1.jots = s.jots
      ∧ (insertTags s id ts).1.contexts = s.contexts
      ∧ (insertTags s id ts).1.metadata = s.metadata
      ∧ (insertTags s id ts).1.nextJotId = s.nextJotId
      ∧ (insertTags s id ts).1.nextContextId = s.nextContextId := by
  induction ts with
  | nil => intro s id; exact ⟨rfl, rfl, rfl, rfl, rfl⟩
  | cons t rest ih =>
    intro s id
    by_cases h : ∃ r ∈ s.tags, r.jotId = id ∧ r.tag = t
    · rw [insertTags, if_pos h]
      exact ⟨rfl, rfl, rfl, rfl, rfl⟩
    · rw [insertTags, if_neg h]
      exact ih _ id

/-- The metadata-insert loop touches only the `metadata` table. -/
theorem insertMetadata_other (kvs : List (String × String)) :
    ∀ (s : Store) (id : Nat),
      (insertMetadata s id kvs).1.jots = s.jots
      ∧ (insertMetadata s id kvs).1.contexts = s.contexts
      ∧ (insertMetadata s id kvs).1.tags = s.tags
      ∧ (insertMetadata s id kvs).1.nextJotId = s.nextJotId
      ∧ (insertMetadata s id kvs).1.nextContextId = s.nextContextId := by
  induction kvs with
  | nil => intro s id; exact ⟨rfl, rfl, rfl, rfl, rfl⟩
  | cons kv rest ih =>
    intro s id
    by_cases h : ∃ r ∈ s.metadata, r.jotId = id ∧ r.key = kv.1
    · rw [insertMetadata, if_pos h]
      exact ⟨rfl, rfl, rfl, rfl, rfl⟩
    · rw [insertMetadata, if_neg h]
      exact ih _ id

/-- Extending the `tags` table extends one jot's tag collection. -/
theorem tagsOfJot_append_same {s : Store} {id : Nat} {t : String} :
    tagsOfJot { s with tags := s.tags ++ [⟨id, t⟩] } id = tagsOfJot s id ++ [t] := by
  simp [tagsOfJot, List.filter_append]

/-- The tag-insert loop succeeds exactly on a duplicate-free list of
tags none of which the jot already has. -/
theorem insertTags_ok_iff (ts : List String) :
    ∀ (s : Store) (id : Nat),
      (insertTags s id ts).2 = true ↔
        ts.Nodup ∧ ∀ t ∈ ts, t ∉ tagsOfJot s id := by
  induction ts with
  | nil => intro s id; simp [insertTags]
  | cons t rest ih =>
    intro s id
    by_cases h : ∃ r ∈ s.tags, r.jotId = id ∧ r.tag = t
    · rw [insertTags, if_pos h]
      have ht : t ∈ tagsOfJot s id := mem_tagsOfJot.mpr h
      simp only [List.nodup_cons, List.mem_cons]
      constructor
      · intro hfalse; exact absurd hfalse (by simp)
      · rintro ⟨-, hall⟩
        exact absurd ht (hall t (Or.inl rfl))
    · rw [insertTags, if_neg h]
      have ht : t ∉ tagsOfJot s id := fun hmem => h (mem_tagsOfJot.mp hmem)
      rw [ih _ id, tagsOfJot_append_same]
      simp only [List.nodup_cons, List.mem_cons, List.mem_append,
        List.not_mem_nil, or_false]
      constructor
      · rintro ⟨hnd, hall⟩
        refine ⟨⟨fun htr => ?_, hnd⟩, ?_⟩
        · exact (hall t htr) (Or.inr rfl)
        · rintro u (rfl | hu)
          · exact ht
          · intro hu'
            exact (hall u hu) (Or.inl hu')
      · rintro ⟨⟨htr, hnd⟩, hall⟩
        refine ⟨hnd, fun u hu => ?_⟩
        rintro (hu' | rfl)
        · exact (hall u (Or.inr hu)) hu'
        · exact htr hu

/-- On success the tag-insert loop appends exactly the given rows. -/
theorem insertTags_ok_state (ts : List String) :
    ∀ (s : Store) (id : Nat),
      (insertTags s id ts).2 = true →
      (insertTags s id ts).1 = { s with tags := s.tags ++ ts.map fun t => ⟨id, t⟩ } := by
  induction ts with
  | nil => intro s id _; simp [insertTags]
  | cons t rest ih =>
    intro s id hok
    by_cases h : ∃ r ∈ s.tags, r.jotId = id ∧ r.tag = t
    · rw [insertTags, if_pos h] at hok
      exact absurd hok (by simp)
    · rw [insertTags, if_neg h] at hok ⊢
      rw [ih _ id hok]
      simp

/-- Extending the `metadata` table extends one jot's key collection. -/
theorem keysOfJot_append_same {s : Store} {id : Nat} {k v : String} :
    keysOfJot { s with metadata := s.metadata ++ [⟨id, k, v⟩] } id =
      keysOfJot s id ++ [k] := by
  simp [keysOfJot, List.filter_append]

/-- The metadata-insert loop succeeds exactly on duplicate-free keys
none of which the jot already has. -/
theorem insertMetadata_ok_iff (kvs : List (String × String)) :
    ∀ (s : Store) (id : Nat),
      (insertMetadata s id kvs).2 = true ↔
        (kvs.map Prod.fst).Nodup ∧ ∀ kv ∈ kvs, kv.1 ∉ keysOfJot s id := by
  induction kvs with
  | nil => intro s id; simp [insertMetadata]
  | cons kv rest ih =>
    intro s id
    obtain ⟨k, v⟩ := kv
    by_cases h : ∃ r ∈ s.metadata, r.jotId = id ∧ r.key = k
    · rw [insertMetadata, if_pos h]
      have hk : k ∈ keysOfJot s id := mem_keysOfJot.mpr h
      simp only [List.map_cons, List.nodup_cons, List.mem_cons]
      constructor
      · intro hfalse; exact absurd hfalse (by simp)
      · rintro ⟨-, hall⟩
        exact absurd hk (hall (k, v) (Or.inl rfl))
    · rw [insertMetadata, if_neg h]
      have hk : k ∉ keysOfJot s id := fun hmem => h (mem_keysOfJot.mp hmem)
      rw [ih _ id, keysOfJot_append_same]
      simp only [List.map_cons, List.nodup_cons, List.mem_cons,
        List.mem_append, List.not_mem_nil, or_false, List.mem_map]
      constructor
      · rintro ⟨hnd, hall⟩
        refine ⟨⟨fun hkr => ?_, hnd⟩, ?_⟩
        · obtain ⟨kv', hkv', hfst⟩ := hkr
          exact (hall kv' hkv') (Or.inr hfst)
        · rintro u (rfl | hu)
          · exact hk
          · intro hu'
            exact (hall u hu) (Or.inl hu')
      · rintro ⟨⟨hkr, hnd⟩, hall⟩
        refine ⟨hnd, fun u hu => ?_⟩
        rintro (hu' | hv)
        · exact (hall u (Or.inr hu)) hu'
        · exact hkr ⟨u, hu, hv⟩

/-- On success the metadata-insert loop appends exactly the given rows. -/
theorem insertMetadata_ok_state (kvs : List (String × String)) :
    ∀ (s : Store) (id : Nat),
      (insertMetadata s id kvs).2 = true →
      (insertMetadata s id kvs).1 =
        { s with metadata := s.metadata ++ kvs.map fun kv => ⟨id, kv.1, kv.2⟩ } := by
  induction kvs with
  | nil => intro s id _; simp [insertMetadata]
  | cons kv rest ih =>
    intro s id hok
    obtain ⟨k, v⟩ := kv
    by_cases h : ∃ r ∈ s.metadata, r.jotId = id ∧ r.key = k
    · rw [insertMetadata, if_pos h] at hok
      exact absurd hok (by simp)
    · rw [insertMetadata, if_neg h] at hok ⊢
      rw [ih _ id hok]
      simp

/-- A jot id that no tag row references has an empty tag collection. -/
theorem tagsOfJot_eq_nil {s : Store} {id : Nat}
    (h : ∀ r ∈ s.tags, r.jotId ≠ id) : tagsOfJot s id = [] := by
  simp only [tagsOfJot, List.map_eq_nil_iff, List.filter_eq_nil_iff,
    decide_eq_true_eq]
  exact h

/-- A jot id that no metadata row references has no keys. -/
theorem keysOfJot_eq_nil {s : Store} {id : Nat}
    (h : ∀ r ∈ s.metadata, r.jotId ≠ id) : keysOfJot s id = [] := by
  simp only [keysOfJot, List.map_eq_nil_iff, List.filter_eq_nil_iff,
    decide_eq_true_eq]
  exact h

/-- Full characterization of a successful `createJot`: with an existing
target context, a fresh next id, duplicate-free tags and duplicate-free
metadata keys, all four writes happen and the returned entry carries
exactly the supplied fields. -/
theorem createJot_success_eq (s : Store) (now : Int) (cid : Nat)
    (msg : String) (exp : Option Int) (ts : List String)
    (md : List (String × String))
    (hc : ∃ c ∈ s.contexts, c.id = cid)
    (hj : ∀ j ∈ s.jots, j.id ≠ s.nextJotId)
    (htg : ∀ r ∈ s.tags, r.jotId ≠ s.nextJotId)
    (hmd : ∀ r ∈ s.metadata, r.jotId ≠ s.nextJotId)
    (hts : ts.Nodup) (hkeys : (md.map Prod.fst).Nodup) :
    createJot s now cid msg exp ts md =
      ({ contexts := s.contexts.map fun c =>
           if c.id = cid then { c with updatedAt := now } else c
         jots := s.jots ++ [⟨s.nextJotId, cid, msg, now, now, exp⟩]
         tags := s.tags ++ ts.map fun t => ⟨s.nextJotId, t⟩
         metadata := s.metadata ++ md.map fun kv => ⟨s.nextJotId, kv.1, kv.2⟩
         nextContextId := s.nextContextId
         nextJotId := s.nextJotId + 1 },
       some ⟨s.nextJotId, cid, msg, now, now, exp, ts, md⟩) := by
  have hnilt : tagsOfJot
      { s with
        jots := s.jots ++ [⟨s.nextJotId, cid, msg, now, now, exp⟩]
        nextJotId := s.nextJotId + 1 }
      s.nextJotId = [] := tagsOfJot_eq_nil fun r hr => htg r hr
  have hok1 : (insertTags
      { s with
        jots := s.jots ++ [⟨s.nextJotId, cid, msg, now, now, exp⟩]
        nextJotId := s.nextJotId + 1 }
      s.nextJotId ts).2 = true := by
    rw [insertTags_ok_iff, hnilt]
    exact ⟨hts, fun t ht => List.not_mem_nil t⟩
  have hstate1 : insertTags
      { s with
        jots := s.jots ++ [⟨s.nextJotId, cid, msg, now, now, exp⟩]
        nextJotId := s.nextJotId + 1 }
      s.nextJotId ts =
      ({ s with
         jots := s.jots ++ [⟨s.nextJotId, cid, msg, now, now, exp⟩]
         tags := s.tags ++ ts.map fun t => ⟨s.nextJotId, t⟩
         nextJotId := s.nextJotId + 1 }, true) := by
    rw [Prod.ext_iff]
    exact ⟨insertTags_ok_state ts _ s.nextJotId hok1, hok1⟩
  have hnilk : keysOfJot
      { s with
        jots := s.jots ++ [⟨s.nextJotId, cid, msg, now, now, exp⟩]
        tags := s.tags ++ ts.map fun t => ⟨s.nextJotId, t⟩
        nextJotId := s.nextJotId + 1 }
      s.nextJotId = [] := keysOfJot_eq_nil fun r hr => hmd r hr
  have hok2 : (insertMetadata
      { s with
        jots := s.jots ++ [⟨s.nextJotId, cid, msg, now, now, exp⟩]
        tags := s.tags ++ ts.map fun t => ⟨s.nextJotId, t⟩
        nextJotId := s.nextJotId + 1 }
      s.nextJotId md).2 = true := by
    rw [insertMetadata_ok_iff, hnilk]
    exact ⟨hkeys, fun kv hkv => List.not_mem_nil kv.1⟩
  have hstate2 : insertMetadata
      { s with
        jots := s.jots ++ [⟨s.nextJotId, cid, msg, now, now, exp⟩]
        tags := s.tags ++ ts.map fun t => ⟨s.nextJotId, t⟩
        nextJotId := s.nextJotId + 1 }
      s.nextJotId md =
      ({ s with
         jots := s.jots ++ [⟨s.nextJotId, cid, msg, now, now, exp⟩]
         tags := s.tags ++ ts.map fun t => ⟨s.nextJotId, t⟩
         metadata := s.metadata ++ md.map fun kv => ⟨s.nextJotId, kv.1, kv.2⟩
         nextJotId := s.nextJotId + 1 }, true) := by
    rw [Prod.ext_iff]
    exact ⟨insertMetadata_ok_state md _ s.nextJotId hok2, hok2⟩
  have hfind : (s.jots ++ [(⟨s.nextJotId, cid, msg, now, now, exp⟩ : JotRow)]).find?
      (fun j => decide (j.id = s.nextJotId)) =
      some ⟨s.nextJotId, cid, msg, now, now, exp⟩ := by
    rw [List.find?_append]
    have hnone : s.jots.find? (fun j => decide (j.id = s.nextJotId)) = none := by
      rw [List.find?_eq_none]
      intro j hjmem
      simp only [decide_eq_true_eq]
      exact hj j hjmem
    rw [hnone]
    simp
  unfold createJot
  rw [if_pos hc]
  split
  · rename_i s2 heq
    rw [hstate1] at heq
    simp at heq
  · rename_i s2 heq
    rw [hstate1] at heq
    simp only [Prod.mk.injEq, and_true] at heq
    subst heq
    split
    · rename_i s3 heq2
      rw [hstate2] at heq2
      simp at heq2
    · rename_i s3 heq2
      rw [hstate2] at heq2
      simp only [Prod.mk.injEq, and_true] at heq2
      subst heq2
      rw [Prod.mk.injEq]
      constructor
      · rfl
      · rw [getJot]
        have hjots : (touchContext
            { s with
              jots := s.jots ++ [⟨s.nextJotId, cid, msg, now, now, exp⟩]
              tags := s.tags ++ ts.map fun t => ⟨s.nextJotId, t⟩
              metadata := s.metadata ++ md.map fun kv => ⟨s.nextJotId, kv.1, kv.2⟩
              nextJotId := s.nextJotId + 1 } cid now).jots =
            s.jots ++ [⟨s.nextJotId, cid, msg, now, now, exp⟩] := rfl
        rw [hjots, hfind]
        simp only [Option.map_some']
        congr 1
        rw [mapJot]
        have htagtable : (touchContext
            { s with
              jots := s.jots ++ [⟨s.nextJotId, cid, msg, now, now, exp⟩]
              tags := s.tags ++ ts.map fun t => ⟨s.nextJotId, t⟩
              metadata := s.metadata ++ md.map fun kv => ⟨s.nextJotId, kv.1, kv.2⟩
              nextJotId := s.nextJotId + 1 } cid now).tags =
            s.tags ++ ts.map fun t => ⟨s.nextJotId, t⟩ := rfl
        have hmetatable : (touchContext
            { s with
              jots := s.jots ++ [⟨s.nextJotId, cid, msg, now, now, exp⟩]
              tags := s.tags ++ ts.map fun t => ⟨s.nextJotId, t⟩
              metadata := s.metadata ++ md.map fun kv => ⟨s.nextJotId, kv.1, kv.2⟩
              nextJotId := s.nextJotId + 1 } cid now).metadata =
            s.metadata ++ md.map fun kv => ⟨s.nextJotId, kv.1, kv.2⟩ := rfl
        rw [htagtable, hmetatable]
        have hpr : (s.tags.filter fun r => decide (r.jotId = s.nextJotId)) = [] :=
          List.filter_eq_nil_iff.mpr fun r hr => by simpa using htg r hr
        have hpm : (s.metadata.filter fun r => decide (r.jotId = s.nextJotId)) = [] :=
          List.filter_eq_nil_iff.mpr fun r hr => by simpa using hmd r hr
        simp [List.filter_append, List.filter_map, hpr, hpm, Function.comp_def]

/-- A duplicate among the tags or among the metadata keys makes
`createJot` raise (the result entry is `none`). -/
theorem createJot_fail_of_dup (s : Store) (now : Int) (cid : Nat)
    (msg : String) (exp : Option Int) (ts : List String)
    (md : List (String × String))
    (hc : ∃ c ∈ s.contexts, c.id = cid)
    (htg : ∀ r ∈ s.tags, r.jotId ≠ s.nextJotId)
    (hdup : ¬(ts.Nodup ∧ (md.map Prod.fst).Nodup)) :
    (createJot s now cid msg exp ts md).2 = none := by
  unfold createJot
  rw [if_pos hc]
  by_cases hts : ts.Nodup
  · have hnilt : tagsOfJot
        { s with
          jots := s.jots ++ [⟨s.nextJotId, cid, msg, now, now, exp⟩]
          nextJotId := s.nextJotId + 1 }
        s.nextJotId = [] := tagsOfJot_eq_nil fun r hr => htg r hr
    have hok1 : (insertTags
        { s with
          jots := s.jots ++ [⟨s.nextJotId, cid, msg, now, now, exp⟩]
          nextJotId := s.nextJotId + 1 }
        s.nextJotId ts).2 = true := by
      rw [insertTags_ok_iff, hnilt]
      exact ⟨hts, fun t ht => List.not_mem_nil t⟩
    have hstate1 : insertTags
        { s with
          jots := s.jots ++ [⟨s.nextJotId, cid, msg, now, now, exp⟩]
          nextJotId := s.nextJotId + 1 }
        s.nextJotId ts =
        ({ s with
           jots := s.jots ++ [⟨s.nextJotId, cid, msg, now, now, exp⟩]
           tags := s.tags ++ ts.map fun t => ⟨s.nextJotId, t⟩
           nextJotId := s.nextJotId + 1 }, true) := by
      rw [Prod.ext_iff]
      exact ⟨insertTags_ok_state ts _ s.nextJotId hok1, hok1⟩
    rw [hstate1]
    have hkdup : ¬(md.map Prod.fst).Nodup := fun h => hdup ⟨hts, h⟩
    have hko : (insertMetadata
        { s with
          jots := s.jots ++ [⟨s.nextJotId, cid, msg, now, now, exp⟩]
          tags := s.tags ++ ts.map fun t => ⟨s.nextJotId, t⟩
          nextJotId := s.nextJotId + 1 }
        s.nextJotId md).2 = false := by
      rw [Bool.eq_false_iff]
      intro habs
      rw [insertMetadata_ok_iff] at habs
      exact hkdup habs.1
    rcases hmeta2 : insertMetadata
        { s with
          jots := s.jots ++ [⟨s.nextJotId, cid, msg, now, now, exp⟩]
          tags := s.tags ++ ts.map fun t => ⟨s.nextJotId, t⟩
          nextJotId := s.nextJotId + 1 }
        s.nextJotId md with ⟨s', b⟩
    rw [hmeta2] at hko
    simp only at hko
    subst hko
    simp only [hmeta2]
  · have hko : (insertTags
        { s with
          jots := s.jots ++ [⟨s.nextJotId, cid, msg, now, now, exp⟩]
          nextJotId := s.nextJotId + 1 }
        s.nextJotId ts).2 = false := by
      rw [Bool.eq_false_iff]
      intro habs
      rw [insertTags_ok_iff] at habs
      exact hts habs.1
    rcases htags2 : insertTags
        { s with
          jots := s.jots ++ [⟨s.nextJotId, cid, msg, now, now, exp⟩]
          nextJotId := s.nextJotId + 1 }
        s.nextJotId ts with ⟨s', b⟩
    rw [htags2] at hko
    simp only at hko
    subst hko
    rfl

/-- Calling `createJot` with the same tag twice inserts the jot row and
the first tag row, then raises on the UNIQUE(jot_id, tag) constraint,
leaving exactly those two writes committed. -/
theorem createJot_dup_tag_leftover (s : Store) (now : Int) (cid : Nat)
    (msg : String) (exp : Option Int) (t : String)
    (md : List (String × String))
    (hc : ∃ c ∈ s.contexts, c.id = cid)
    (htg : ∀ r ∈ s.tags, r.jotId ≠ s.nextJotId) :
    createJot s now cid msg exp [t, t] md =
      ({ s with
         jots := s.jots ++ [⟨s.nextJotId, cid, msg, now, now, exp⟩]
         tags := s.tags ++ [⟨s.nextJotId, t⟩]
         nextJotId := s.nextJotId + 1 }, none) := by
  have hcond1 : ¬ ∃ r ∈ ({ s with
      jots := s.jots ++ [⟨s.nextJotId, cid, msg, now, now, exp⟩]
      nextJotId := s.nextJotId + 1 } : Store).tags,
      r.jotId = s.nextJotId ∧ r.tag = t := by
    rintro ⟨r, hr, hid, -⟩
    exact htg r hr hid
  have hcond2 : ∃ r ∈ ({ s with
      jots := s.jots ++ [⟨s.nextJotId, cid, msg, now, now, exp⟩]
      nextJotId := s.nextJotId + 1 } : Store).tags ++ [⟨s.nextJotId, t⟩],
      r.jotId = s.nextJotId ∧ r.tag = t :=
    ⟨⟨s.nextJotId, t⟩, List.mem_append_right _ (List.mem_singleton.mpr rfl),
     rfl, rfl⟩
  have hstep : insertTags
      { s with
        jots := s.jots ++ [⟨s.nextJotId, cid, msg, now, now, exp⟩]
        nextJotId := s.nextJotId + 1 }
      s.nextJotId [t, t] =
      ({ s with
         jots := s.jots ++ [⟨s.nextJotId, cid, msg, now, now, exp⟩]
         tags := s.tags ++ [⟨s.nextJotId, t⟩]
         nextJotId := s.nextJotId + 1 }, false) := by
    rw [insertTags, if_neg hcond1, insertTags, if_pos hcond2]
  unfold createJot
  rw [if_pos hc]
  split
  · rename_i s2 heq
    rw [hstep] at heq
    simp only [Prod.mk.injEq, and_true] at heq
    subst heq
    rfl
  · rename_i s2 heq
    rw [hstep] at heq
    simp at heq

/-- C1.  The spec claims every `createJot` is atomic: on failure the
store is left in the pre-operation state.  Counterexample: creating a
jot with tags `["dup", "dup"]` in a store holding one empty context
fails (UNIQUE constraint on the second tag insert) yet leaves the store
changed — the jot row and the first tag row are committed. -/
theorem createJot_atomicity_counterexample :
    (createJot ctxOnlyStore 5 1 "note" none ["dup", "dup"] []).2 = none
    ∧ (createJot ctxOnlyStore 5 1 "note" none ["dup", "dup"] []).1 ≠
        ctxOnlyStore := by
  decide

/-- C1 (amended).  `createJot` is not atomic: it commits statement by
statement, so a duplicate tag in the input makes the call fail while the
already-performed writes — the jot row and the first tag row — remain in
the store, which therefore differs from the pre-operation state. -/
theorem createJot_not_atomic (s : Store) (now : Int) (cid : Nat)
    (msg : String) (exp : Option Int) (t : String)
    (md : List (String × String))
    (hc : ∃ c ∈ s.contexts, c.id = cid)
    (htg : ∀ r ∈ s.tags, r.jotId ≠ s.nextJotId) :
    (createJot s now cid msg exp [t, t] md).2 = none
    ∧ (createJot s now cid msg exp [t, t] md).1 =
        { s with
          jots := s.jots ++ [⟨s.nextJotId, cid, msg, now, now, exp⟩]
          tags := s.tags ++ [⟨s.nextJotId, t⟩]
          nextJotId := s.nextJotId + 1 }
    ∧ (createJot s now cid msg exp [t, t] md).1 ≠ s := by
  have h := createJot_dup_tag_leftover s now cid msg exp t md hc htg
  refine ⟨by rw [h], by rw [h], ?_⟩
  rw [h]
  intro habs
  have hlen := congrArg (fun st => st.jots.length) habs
  simp at hlen

/-- Witness for C1 (amended): the store keeping one empty context,
`now = 9`, duplicate tag `"w"`. -/
theorem createJot_not_atomic_witness :
    (createJot ctxOnlyStore 9 1 "memo" none ["w", "w"] [("a", "b")]).2 = none
    ∧ (createJot ctxOnlyStore 9 1 "memo" none ["w", "w"] [("a", "b")]).1 ≠
        ctxOnlyStore :=
  ⟨(createJot_not_atomic ctxOnlyStore 9 1 "memo" none "w" [("a", "b")]
      (by decide) (by decide)).1,
   (createJot_not_atomic ctxOnlyStore 9 1 "memo" none "w" [("a", "b")]
      (by decide) (by decide)).2.2⟩

/-- C3.  The spec claims a `createJot` call with duplicate tags succeeds
and stores the deduplicated set.  Counterexample: with tags
`["x", "x"]` the call fails (no jot entry is returned) instead of
collapsing the duplicates. -/
theorem createJot_duplicate_tags_counterexample :
    (createJot ctxOnlyStore 7 1 "msg" none ["x", "x"] []).2 = none := by
  decide

/-- C3 (amended).  Duplicates are rejected, not collapsed: `createJot`
returns an entry exactly when the tag list and the metadata key list are
duplicate-free, and a returned entry carries exactly the supplied tags
and metadata (metadata reaches this layer as a key-unique record, so
last-write-wins collapse happens before the repository, not in it). -/
theorem createJot_duplicate_handling (s : Store) (now : Int) (cid : Nat)
    (msg : String) (exp : Option Int) (ts : List String)
    (md : List (String × String))
    (hc : ∃ c ∈ s.contexts, c.id = cid)
    (hj : ∀ j ∈ s.jots, j.id ≠ s.nextJotId)
    (htg : ∀ r ∈ s.tags, r.jotId ≠ s.nextJotId)
    (hmd : ∀ r ∈ s.metadata, r.jotId ≠ s.nextJotId) :
    ((createJot s now cid msg exp ts md).2 ≠ none ↔
      ts.Nodup ∧ (md.map Prod.fst).Nodup)
    ∧ (∀ e, (createJot s now cid msg exp ts md).2 = some e →
        e.tags = ts ∧ e.metadata = md ∧ e.message = msg
        ∧ e.expiresAt = exp) := by
  have hiff : (createJot s now cid msg exp ts md).2 ≠ none ↔
      ts.Nodup ∧ (md.map Prod.fst).Nodup := by
    constructor
    · intro hne
      by_contra hdup
      exact hne (createJot_fail_of_dup s now cid msg exp ts md hc htg hdup)
    · intro hnod
      rw [createJot_success_eq s now cid msg exp ts md hc hj htg hmd
        hnod.1 hnod.2]
      simp
  refine ⟨hiff, fun e he => ?_⟩
  have hnod := hiff.mp (by rw [he]; simp)
  rw [createJot_success_eq s now cid msg exp ts md hc hj htg hmd
    hnod.1 hnod.2] at he
  simp only [Option.some.injEq] at he
  subst he
  exact ⟨rfl, rfl, rfl, rfl⟩

/-- Witness for C3 (amended): duplicate-free tags `["a", "b"]` succeed
in the one-context store. -/
theorem createJot_duplicate_handling_witness :
    (createJot ctxOnlyStore 3 1 "hello" none ["a", "b"] [("k", "v")]).2 ≠
      none :=
  ((createJot_duplicate_handling ctxOnlyStore 3 1 "hello" none ["a", "b"]
      [("k", "v")] (by decide) (by decide) (by decide) (by decide)).1).mpr
    (by decide)

theorem tagsUpdateStep_other (o : Option (List String)) (st : Store) (id : Nat) :
    (tagsUpdateStep st id o).1.jots = st.jots
    ∧ (tagsUpdateStep st id o).1.contexts = st.contexts
    ∧ (tagsUpdateStep st id o).1.metadata = st.metadata := by
  cases o with
  | none => exact ⟨rfl, rfl, rfl⟩
  | some ts =>
    have h := insertTags_other ts
      { st with tags := st.tags.filter fun r => decide (¬ r.jotId = id) } id
    exact ⟨h.1, h.2.1, h.2.2.1⟩

theorem metadataUpdateStep_other (o : Option (List (String × String)))
    (st : Store) (id : Nat) :
    (metadataUpdateStep st id o).1.jots = st.jots
    ∧ (metadataUpdateStep st id o).1.contexts = st.contexts
    ∧ (metadataUpdateStep st id o).1.tags = st.tags := by
  cases o with
  | none => exact ⟨rfl, rfl, rfl⟩
  | some kvs =>
    have h := insertMetadata_other kvs
      { st with metadata := st.metadata.filter fun r => decide (¬ r.jotId = id) }
      id
    exact ⟨h.1, h.2.1, h.2.2.1⟩

/-- After `DELETE FROM tags WHERE jot_id = ?` the jot has no tags. -/
theorem tagsOfJot_after_delete (st : Store) (id : Nat) :
    tagsOfJot { st with tags := st.tags.filter fun r => decide (¬ r.jotId = id) }
      id = [] := by
  simp only [tagsOfJot, List.filter_filter]
  rw [List.filter_eq_nil_iff.mpr]
  · rfl
  · intro r hr
    simp

/-- After `DELETE FROM metadata WHERE jot_id = ?` the jot has no keys. -/
theorem keysOfJot_after_delete (st : Store) (id : Nat) :
    keysOfJot
      { st with metadata := st.metadata.filter fun r => decide (¬ r.jotId = id) }
      id = [] := by
  simp only [keysOfJot, List.filter_filter]
  rw [List.filter_eq_nil_iff.mpr]
  · rfl
  · intro r hr
    simp

/-- A successful tags replacement: delete-then-insert yields the old
table minus the jot's rows plus the new rows. -/
theorem tagsUpdateStep_some_ok (st : Store) (id : Nat) (ts : List String)
    (hts : ts.Nodup) :
    tagsUpdateStep st id (some ts) =
      ({ st with tags := (st.tags.filter fun r => decide (¬ r.jotId = id)) ++ ts.map (fun t => ⟨id, t⟩) }, true) := by
  have hok : (insertTags
      { st with tags := st.tags.filter fun r => decide (¬ r.jotId = id) }
      id ts).2 = true := by
    rw [insertTags_ok_iff, tagsOfJot_after_delete]
    exact ⟨hts, fun t ht => List.not_mem_nil t⟩
  rw [tagsUpdateStep, Prod.ext_iff]
  exact ⟨insertTags_ok_state ts _ id hok, hok⟩

/-- A successful metadata replacement. -/
theorem metadataUpdateStep_some_ok (st : Store) (id : Nat)
    (kvs : List (String × String)) (hkeys : (kvs.map Prod.fst).Nodup) :
    metadataUpdateStep st id (some kvs) =
      ({ st with metadata := (st.metadata.filter fun r => decide (¬ r.jotId = id)) ++ kvs.map (fun kv => ⟨id, kv.1, kv.2⟩) }, true) := by
  have hok : (insertMetadata
      { st with metadata := st.metadata.filter fun r => decide (¬ r.jotId = id) }
      id kvs).2 = true := by
    rw [insertMetadata_ok_iff, keysOfJot_after_delete]
    exact ⟨hkeys, fun kv hkv => List.not_mem_nil kv.1⟩
  rw [metadataUpdateStep, Prod.ext_iff]
  exact ⟨insertMetadata_ok_state kvs _ id hok, hok⟩

/-- `find?` by id commutes with an id-preserving row rewrite. -/
theorem find?_jots_map (l : List JotRow) (id : Nat) (g : JotRow → JotRow)
    (hg : ∀ j, (g j).id = j.id) :
    (l.map g).find? (fun j => decide (j.id = id)) =
      (l.find? fun j => decide (j.id = id)).map g := by
  have hp : ((fun j : JotRow => decide (j.id = id)) ∘ g) =
      fun j : JotRow => decide (j.id = id) :=
    funext fun j => by simp [Function.comp_def, hg]
  rw [List.find?_map, hp]

theorem getJot_eq_some {s : Store} {id : Nat} {e : JotEntry} :
    getJot s id = some e ↔
      ∃ r, s.jots.find? (fun j => decide (j.id = id)) = some r
        ∧ mapJot s r = e := by
  rw [getJot, Option.map_eq_some']

/-- The row rewrite of `applyRowUpdate` preserves ids. -/
theorem applyRowUpdate_row_id (e0 : JotEntry) (now : Int) (id : Nat)
    (u : JotUpdates) (j : JotRow) :
    ((fun j => if j.id = id then
        { j with
          message := u.message.getD e0.message
          expiresAt := u.expiresAt.getD e0.expiresAt
          updatedAt := now }
      else j) j).id = j.id := by
  by_cases h : j.id = id <;> simp [h]

theorem applyRowUpdate_other (e0 : JotEntry) (now : Int) (id : Nat)
    (u : JotUpdates) (s : Store) :
    (applyRowUpdate e0 now id u s).contexts = s.contexts
    ∧ (applyRowUpdate e0 now id u s).tags = s.tags
    ∧ (applyRowUpdate e0 now id u s).metadata = s.metadata := by
  rw [applyRowUpdate]
  by_cases h : u.message.isSome || u.expiresAt.isSome
  · rw [if_pos h]
    exact ⟨rfl, rfl, rfl⟩
  · rw [if_neg h]
    exact ⟨rfl, rfl, rfl⟩

/-- Decomposition of a successful `updateJot`: an `.updated` result can
only arise from the full statement chain — both replacement steps
succeeded, the owning context was touched, and the entry was re-read
from the final store. -/
theorem updateJot_updated_elim (s : Store) (now : Int) (id : Nat)
    (u : JotUpdates) (S : Store) (j e0 : JotEntry)
    (hj0 : getJot s id = some e0)
    (hU : updateJot s now id u = (S, .updated j)) :
    ∃ s2 s3,
      tagsUpdateStep (applyRowUpdate e0 now id u s) id u.tags = (s2, true)
      ∧ metadataUpdateStep s2 id u.metadata = (s3, true)
      ∧ S = touchContext s3 e0.contextId now
      ∧ getJot (touchContext s3 e0.contextId now) id = some j := by
  unfold updateJot at hU
  split at hU
  · rename_i heq
    rw [hj0] at heq
    exact Option.noConfusion heq
  · rename_i existing heq
    rw [hj0] at heq
    injection heq with hex
    subst hex
    split at hU
    · rename_i s2 heq2
      injection hU with h1 h2
      exact UpdateResult.noConfusion h2
    · rename_i s2 heq2
      split at hU
      · rename_i s3 heq3
        injection hU with h1 h2
        exact UpdateResult.noConfusion h2
      · rename_i s3 heq3
        split at hU
        · rename_i jj heq4
          injection hU with h1 h2
          injection h2 with h3
          subst h3
          exact ⟨s2, s3, heq2, heq3, h1.symm, heq4⟩
        · rename_i heq4
          injection hU with h1 h2
          exact UpdateResult.noConfusion h2

/-- C4.  The spec claims `updateJot` refreshes the jot's `updatedAt`
whenever any field changes, including a tags-only update.
Counterexample: updating only the tags of the jot created at t=5, with
`now = 10`, returns the jot with `updatedAt` still 5 (the jots-table
UPDATE is guarded by `message`/`expiresAt` being provided), while 5 and
10 differ. -/
theorem updateJot_tags_only_counterexample :
    (updateJot taggedStore 10 1 { tags := some ["x"] }).2 =
      .updated ⟨1, 1, "m", 5, 5, none, ["x"], [("k", "v")]⟩
    ∧ (5 : Int) ≠ 10 := by
  decide

/-- C4 (amended).  On every successful update the owning context's
last-modified timestamp is set to `now`; the jot's own `updatedAt` is
refreshed only when `message` or `expiresAt` is provided — a tags-only
or metadata-only update leaves it unchanged. -/
theorem updateJot_timestamp_refresh (s : Store) (now : Int) (id : Nat)
    (u : JotUpdates) (e0 : JotEntry)
    (hj0 : getJot s id = some e0) :
    (∀ j, (updateJot s now id u).2 = .updated j →
       ∀ c ∈ (updateJot s now id u).1.contexts,
         c.id = e0.contextId → c.updatedAt = now)
    ∧ (u.message = none → u.expiresAt = none →
       ∀ j, (updateJot s now id u).2 = .updated j →
         j.updatedAt = e0.updatedAt)
    ∧ ((u.message.isSome ∨ u.expiresAt.isSome) →
       ∀ j, (updateJot s now id u).2 = .updated j → j.updatedAt = now) := by
  obtain ⟨r0, hfind0, hmap0⟩ := getJot_eq_some.mp hj0
  have hr0id : r0.id = id := by simpa using List.find?_some hfind0
  refine ⟨?_, ?_, ?_⟩
  · intro j hres c hc hcid
    have hU : updateJot s now id u =
        ((updateJot s now id u).1, UpdateResult.updated j) := by
      rw [Prod.ext_iff]
      exact ⟨rfl, hres⟩
    obtain ⟨s2, s3, heq2, heq3, hS, hgj⟩ :=
      updateJot_updated_elim s now id u _ j e0 hj0 hU
    rw [hS] at hc
    simp only [touchContext, List.mem_map] at hc
    obtain ⟨c', hc', hcf⟩ := hc
    by_cases hcc : c'.id = e0.contextId
    · rw [if_pos hcc] at hcf
      rw [← hcf]
    · rw [if_neg hcc] at hcf
      rw [← hcf] at hcid
      exact absurd hcid hcc
  · intro hmsg hexp j hres
    have hU : updateJot s now id u =
        ((updateJot s now id u).1, UpdateResult.updated j) := by
      rw [Prod.ext_iff]
      exact ⟨rfl, hres⟩
    obtain ⟨s2, s3, heq2, heq3, hS, hgj⟩ :=
      updateJot_updated_elim s now id u _ j e0 hj0 hU
    have hXjots : (applyRowUpdate e0 now id u s).jots = s.jots := by
      simp [applyRowUpdate, hmsg, hexp]
    have hs2 : s2 = (tagsUpdateStep (applyRowUpdate e0 now id u s) id u.tags).1 := by
      rw [heq2]
    have hs3 : s3 = (metadataUpdateStep s2 id u.metadata).1 := by
      rw [heq3]
    have hjots : (touchContext s3 e0.contextId now).jots = s.jots := by
      show s3.jots = s.jots
      rw [hs3, (metadataUpdateStep_other u.metadata s2 id).1, hs2,
        (tagsUpdateStep_other u.tags _ id).1, hXjots]
    obtain ⟨r', hfr', hmr'⟩ := getJot_eq_some.mp hgj
    rw [hjots, hfind0] at hfr'
    injection hfr' with hr'
    rw [← hmr', ← hr']
    show r0.updatedAt = e0.updatedAt
    rw [← hmap0]
    rfl
  · intro hguard j hres
    have hb : (u.message.isSome || u.expiresAt.isSome) = true := by
      rcases hguard with h | h <;> simp [h]
    have hU : updateJot s now id u =
        ((updateJot s now id u).1, UpdateResult.updated j) := by
      rw [Prod.ext_iff]
      exact ⟨rfl, hres⟩
    obtain ⟨s2, s3, heq2, heq3, hS, hgj⟩ :=
      updateJot_updated_elim s now id u _ j e0 hj0 hU
    have hXjots : (applyRowUpdate e0 now id u s).jots =
        s.jots.map fun jr => if jr.id = id then
          { jr with
            message := u.message.getD e0.message
            expiresAt := u.expiresAt.getD e0.expiresAt
            updatedAt := now }
        else jr := by
      simp [applyRowUpdate, hb]
    have hs2 : s2 = (tagsUpdateStep (applyRowUpdate e0 now id u s) id u.tags).1 := by
      rw [heq2]
    have hs3 : s3 = (metadataUpdateStep s2 id u.metadata).1 := by
      rw [heq3]
    have hjots : (touchContext s3 e0.contextId now).jots =
        s.jots.map fun jr => if jr.id = id then
          { jr with
            message := u.message.getD e0.message
            expiresAt := u.expiresAt.getD e0.expiresAt
            updatedAt := now }
        else jr := by
      show s3.jots = _
      rw [hs3, (metadataUpdateStep_other u.metadata s2 id).1, hs2,
        (tagsUpdateStep_other u.tags _ id).1, hXjots]
    obtain ⟨r', hfr', hmr'⟩ := getJot_eq_some.mp hgj
    rw [hjots, find?_jots_map s.jots id _ (applyRowUpdate_row_id e0 now id u),
      hfind0] at hfr'
    injection hfr' with hr'
    rw [← hmr', ← hr']
    show (if r0.id = id then
        { r0 with
          message := u.message.getD e0.message
          expiresAt := u.expiresAt.getD e0.expiresAt
          updatedAt := now }
      else r0).updatedAt = now
    rw [if_pos hr0id]

/-- Witness for C4 (amended): the tags-only update of the t=5 jot at
`now = 10` keeps `updatedAt = 5`, and a message update sets it to 10. -/
theorem updateJot_timestamp_refresh_witness :
    (∀ j, (updateJot taggedStore 10 1 { tags := some ["x"] }).2 = .updated j →
      j.updatedAt = 5)
    ∧ (∀ j, (updateJot taggedStore 10 1 { message := some "n" }).2 = .updated j →
      j.updatedAt = 10) :=
  ⟨(updateJot_timestamp_refresh taggedStore 10 1 { tags := some ["x"] }
      ⟨1, 1, "m", 5, 5, none, ["old-tag"], [("k", "v")]⟩ (by decide)).2.1
      rfl rfl,
   (updateJot_timestamp_refresh taggedStore 10 1 { message := some "n" }
      ⟨1, 1, "m", 5, 5, none, ["old-tag"], [("k", "v")]⟩ (by decide)).2.2
      (Or.inl (by decide))⟩

theorem mapJot_message (st : Store) (r : JotRow) :
    (mapJot st r).message = r.message := rfl

theorem mapJot_expiresAt (st : Store) (r : JotRow) :
    (mapJot st r).expiresAt = r.expiresAt := rfl

theorem mapJot_tags (st : Store) (r : JotRow) :
    (mapJot st r).tags =
      (st.tags.filter fun x => decide (x.jotId = r.id)).map TagRow.tag := rfl

theorem mapJot_metadata (st : Store) (r : JotRow) :
    (mapJot st r).metadata =
      (st.metadata.filter fun x => decide (x.jotId = r.id)).map
        fun x => (x.key, x.value) := rfl

/-- Reading back the tag rows written by a replacement yields exactly
the new tag list. -/
theorem tags_replacement_filter (l : List TagRow) (id : Nat)
    (ts : List String) :
    (((l.filter fun r : TagRow => decide (¬ r.jotId = id)) ++
        ts.map (fun t => (⟨id, t⟩ : TagRow))).filter
      fun r : TagRow => decide (r.jotId = id)).map TagRow.tag = ts := by
  rw [List.filter_append]
  have h1 : (l.filter fun r => decide (¬ r.jotId = id)).filter
      (fun r => decide (r.jotId = id)) = [] := by
    rw [List.filter_filter, List.filter_eq_nil_iff.mpr]
    intro r hr
    simp
  rw [h1, List.nil_append, List.filter_map]
  have h2 : ((fun r : TagRow => decide (r.jotId = id)) ∘
      fun t => (⟨id, t⟩ : TagRow)) = fun _ => true := by
    funext t
    simp [Function.comp_def]
  rw [h2, List.filter_true, List.map_map]
  simp [Function.comp_def]

/-- Reading back the metadata rows written by a replacement yields
exactly the new key/value list. -/
theorem metadata_replacement_filter (l : List MetaRow) (id : Nat)
    (kvs : List (String × String)) :
    (((l.filter fun r : MetaRow => decide (¬ r.jotId = id)) ++
        kvs.map (fun kv => (⟨id, kv.1, kv.2⟩ : MetaRow))).filter
      fun r : MetaRow => decide (r.jotId = id)).map
        (fun x : MetaRow => (x.key, x.value)) = kvs := by
  rw [List.filter_append]
  have h1 : (l.filter fun r => decide (¬ r.jotId = id)).filter
      (fun r => decide (r.jotId = id)) = [] := by
    rw [List.filter_filter, List.filter_eq_nil_iff.mpr]
    intro r hr
    simp
  rw [h1, List.nil_append, List.filter_map]
  have h2 : ((fun r : MetaRow => decide (r.jotId = id)) ∘
      fun kv : String × String => (⟨id, kv.1, kv.2⟩ : MetaRow)) =
      fun _ => true := by
    funext kv
    simp [Function.comp_def]
  rw [h2, List.filter_true, List.map_map]
  simp [Function.comp_def]

/-- Forward computation of `updateJot` along a fully successful
statement chain. -/
theorem updateJot_run (s : Store) (now : Int) (id : Nat) (u : JotUpdates)
    (e0 : JotEntry) (hj0 : getJot s id = some e0) (s2 s3 : Store)
    (h2 : tagsUpdateStep (applyRowUpdate e0 now id u s) id u.tags = (s2, true))
    (h3 : metadataUpdateStep s2 id u.metadata = (s3, true))
    (jj : JotEntry)
    (h4 : getJot (touchContext s3 e0.contextId now) id = some jj) :
    updateJot s now id u = (touchContext s3 e0.contextId now, .updated jj) := by
  unfold updateJot
  split
  · rename_i heq
    rw [hj0] at heq
    exact Option.noConfusion heq
  · rename_i ex heq
    rw [hj0] at heq
    injection heq with hex
    subst hex
    split
    · rename_i s2' heq2
      rw [h2] at heq2
      injection heq2 with ha hb
      exact Bool.noConfusion hb
    · rename_i s2' heq2
      rw [h2] at heq2
      injection heq2 with ha hb
      subst ha
      split
      · rename_i s3' heq3
        rw [h3] at heq3
        injection heq3 with hc hd
        exact Bool.noConfusion hd
      · rename_i s3' heq3
        rw [h3] at heq3
        injection heq3 with hc hd
        subst hc
        split
        · rename_i jj' heq4
          rw [h4] at heq4
          injection heq4 with he
          rw [he]
        · rename_i heq4
          rw [h4] at heq4
          exact Option.noConfusion heq4

/-- C5.  `updateJot` applies only the provided fields: a message-only
update keeps expiration, tags and metadata; a provided tags list fully
replaces the old tag set (the old tags are gone); a provided metadata
list fully replaces the old entries. -/
theorem updateJot_partial_update (s : Store) (now : Int) (id : Nat)
    (e0 : JotEntry) (hj0 : getJot s id = some e0) :
    (∀ (u : JotUpdates) (m : String), u.message = some m →
      u.expiresAt = none → u.tags = none → u.metadata = none →
      ∃ j, (updateJot s now id u).2 = .updated j
        ∧ j.message = m ∧ j.expiresAt = e0.expiresAt
        ∧ j.tags = e0.tags ∧ j.metadata = e0.metadata)
    ∧ (∀ (u : JotUpdates) (ts : List String), u.message = none →
      u.expiresAt = none → u.tags = some ts → u.metadata = none →
      ts.Nodup →
      ∃ j, (updateJot s now id u).2 = .updated j
        ∧ j.tags = ts ∧ j.message = e0.message
        ∧ j.expiresAt = e0.expiresAt ∧ j.metadata = e0.metadata)
    ∧ (∀ (u : JotUpdates) (kvs : List (String × String)), u.message = none →
      u.expiresAt = none → u.tags = none → u.metadata = some kvs →
      (kvs.map Prod.fst).Nodup →
      ∃ j, (updateJot s now id u).2 = .updated j
        ∧ j.metadata = kvs ∧ j.message = e0.message
        ∧ j.expiresAt = e0.expiresAt ∧ j.tags = e0.tags) := by
  obtain ⟨r0, hfind0, hmap0⟩ := getJot_eq_some.mp hj0
  have hr0id : r0.id = id := by simpa using List.find?_some hfind0
  refine ⟨?_, ?_, ?_⟩
  · intro u m hum hue hut humd
    have hX : applyRowUpdate e0 now id u s =
        { s with jots := s.jots.map fun jr => if jr.id = id then
            { jr with message := m, expiresAt := e0.expiresAt, updatedAt := now }
          else jr } := by
      simp [applyRowUpdate, hum, hue]
    have h2 : tagsUpdateStep (applyRowUpdate e0 now id u s) id u.tags =
        (applyRowUpdate e0 now id u s, true) := by
      rw [hut]
      rfl
    have h3 : metadataUpdateStep (applyRowUpdate e0 now id u s) id u.metadata =
        (applyRowUpdate e0 now id u s, true) := by
      rw [humd]
      rfl
    have hjots : (touchContext (applyRowUpdate e0 now id u s) e0.contextId
        now).jots = s.jots.map fun jr => if jr.id = id then
          { jr with message := m, expiresAt := e0.expiresAt, updatedAt := now }
        else jr := by
      show (applyRowUpdate e0 now id u s).jots = _
      rw [hX]
    have hgid : ∀ jr : JotRow, ((fun jr : JotRow => if jr.id = id then
        { jr with message := m, expiresAt := e0.expiresAt, updatedAt := now }
        else jr) jr).id = jr.id := by
      intro jr
      by_cases h : jr.id = id <;> simp [h]
    have h4 : getJot (touchContext (applyRowUpdate e0 now id u s)
        e0.contextId now) id =
        some (mapJot (touchContext (applyRowUpdate e0 now id u s)
          e0.contextId now)
          { r0 with message := m, expiresAt := e0.expiresAt, updatedAt := now }) := by
      rw [getJot, hjots, find?_jots_map s.jots id _ hgid, hfind0]
      simp [hr0id]
    have hU := updateJot_run s now id u e0 hj0 _ _ h2 h3 _ h4
    refine ⟨mapJot (touchContext (applyRowUpdate e0 now id u s)
        e0.contextId now)
        { r0 with message := m, expiresAt := e0.expiresAt, updatedAt := now },
      ?_, ?_, ?_, ?_, ?_⟩
    · rw [hU]
    · rfl
    · rfl
    · rw [mapJot_tags]
      have htbl : (touchContext (applyRowUpdate e0 now id u s)
          e0.contextId now).tags = s.tags := by
        show (applyRowUpdate e0 now id u s).tags = s.tags
        exact (applyRowUpdate_other e0 now id u s).2.1
      rw [htbl, ← hmap0]
      rfl
    · rw [mapJot_metadata]
      have htbl : (touchContext (applyRowUpdate e0 now id u s)
          e0.contextId now).metadata = s.metadata := by
        show (applyRowUpdate e0 now id u s).metadata = s.metadata
        exact (applyRowUpdate_other e0 now id u s).2.2
      rw [htbl, ← hmap0]
      rfl
  · intro u ts hum hue hut humd hts
    have hX : applyRowUpdate e0 now id u s = s := by
      simp [applyRowUpdate, hum, hue]
    have h2 : tagsUpdateStep (applyRowUpdate e0 now id u s) id u.tags =
        ({ s with tags := (s.tags.filter fun r => decide (¬ r.jotId = id)) ++ ts.map (fun t => ⟨id, t⟩) }, true) := by
      rw [hut, hX]
      exact tagsUpdateStep_some_ok s id ts hts
    have h3 : metadataUpdateStep
        { s with tags := (s.tags.filter fun r => decide (¬ r.jotId = id)) ++ ts.map (fun t => ⟨id, t⟩) }
        id u.metadata =
        ({ s with tags := (s.tags.filter fun r => decide (¬ r.jotId = id)) ++ ts.map (fun t => ⟨id, t⟩) }, true) := by
      rw [humd]
      rfl
    have h4 : getJot (touchContext
        { s with tags := (s.tags.filter fun r => decide (¬ r.jotId = id)) ++ ts.map (fun t => ⟨id, t⟩) }
        e0.contextId now) id =
        some (mapJot (touchContext
          { s with tags := (s.tags.filter fun r => decide (¬ r.jotId = id)) ++ ts.map (fun t => ⟨id, t⟩) }
          e0.contextId now) r0) := by
      rw [getJot]
      have hjots : (touchContext
          { s with tags := (s.tags.filter fun r => decide (¬ r.jotId = id)) ++ ts.map (fun t => ⟨id, t⟩) }
          e0.contextId now).jots = s.jots := rfl
      rw [hjots, hfind0]
      rfl
    have hU := updateJot_run s now id u e0 hj0 _ _ h2 h3 _ h4
    refine ⟨mapJot (touchContext
        { s with tags := (s.tags.filter fun r => decide (¬ r.jotId = id)) ++ ts.map (fun t => ⟨id, t⟩) }
        e0.contextId now) r0, ?_, ?_, ?_, ?_, ?_⟩
    · rw [hU]
    · rw [mapJot_tags, hr0id]
      have htbl : (touchContext
          { s with tags := (s.tags.filter fun r => decide (¬ r.jotId = id)) ++ ts.map (fun t => ⟨id, t⟩) }
          e0.contextId now).tags =
          (s.tags.filter fun r => decide (¬ r.jotId = id)) ++ ts.map (fun t => ⟨id, t⟩) := rfl
      rw [htbl]
      exact tags_replacement_filter s.tags id ts
    · rw [mapJot_message, ← hmap0]
      rfl
    · rw [mapJot_expiresAt, ← hmap0]
      rfl
    · rw [mapJot_metadata]
      have htbl : (touchContext
          { s with tags := (s.tags.filter fun r => decide (¬ r.jotId = id)) ++ ts.map (fun t => ⟨id, t⟩) }
          e0.contextId now).metadata = s.metadata := rfl
      rw [htbl, ← hmap0]
      rfl
  · intro u kvs hum hue hut humd hkeys
    have hX : applyRowUpdate e0 now id u s = s := by
      simp [applyRowUpdate, hum, hue]
    have h2 : tagsUpdateStep (applyRowUpdate e0 now id u s) id u.tags =
        (s, true) := by
      rw [hut, hX]
      rfl
    have h3 : metadataUpdateStep s id u.metadata =
        ({ s with metadata := (s.metadata.filter fun r => decide (¬ r.jotId = id)) ++ kvs.map (fun kv => ⟨id, kv.1, kv.2⟩) }, true) := by
      rw [humd]
      exact metadataUpdateStep_some_ok s id kvs hkeys
    have h4 : getJot (touchContext
        { s with metadata := (s.metadata.filter fun r => decide (¬ r.jotId = id)) ++ kvs.map (fun kv => ⟨id, kv.1, kv.2⟩) }
        e0.contextId now) id =
        some (mapJot (touchContext
          { s with metadata := (s.metadata.filter fun r => decide (¬ r.jotId = id)) ++ kvs.map (fun kv => ⟨id, kv.1, kv.2⟩) }
          e0.contextId now) r0) := by
      rw [getJot]
      have hjots : (touchContext
          { s with metadata := (s.metadata.filter fun r => decide (¬ r.jotId = id)) ++ kvs.map (fun kv => ⟨id, kv.1, kv.2⟩) }
          e0.contextId now).jots = s.jots := rfl
      rw [hjots, hfind0]
      rfl
    have hU := updateJot_run s now id u e0 hj0 _ _ h2 h3 _ h4
    refine ⟨mapJot (touchContext
        { s with metadata := (s.metadata.filter fun r => decide (¬ r.jotId = id)) ++ kvs.map (fun kv => ⟨id, kv.1, kv.2⟩) }
        e0.contextId now) r0, ?_, ?_, ?_, ?_, ?_⟩
    · rw [hU]
    · rw [mapJot_metadata, hr0id]
      have htbl : (touchContext
          { s with metadata := (s.metadata.filter fun r => decide (¬ r.jotId = id)) ++ kvs.map (fun kv => ⟨id, kv.1, kv.2⟩) }
          e0.contextId now).metadata =
          (s.metadata.filter fun r => decide (¬ r.jotId = id)) ++ kvs.map (fun kv => ⟨id, kv.1, kv.2⟩) := rfl
      rw [htbl]
      exact metadata_replacement_filter s.metadata id kvs
    · rw [mapJot_message, ← hmap0]
      rfl
    · rw [mapJot_expiresAt, ← hmap0]
      rfl
    · rw [mapJot_tags]
      have htbl : (touchContext
          { s with metadata := (s.metadata.filter fun r => decide (¬ r.jotId = id)) ++ kvs.map (fun kv => ⟨id, kv.1, kv.2⟩) }
          e0.contextId now).tags = s.tags := rfl
      rw [htbl, ← hmap0]
      rfl

/-- Witness for C5: the jot tagged `old-tag` updated with
`tags := ["new-tag"]` ends with tags exactly `["new-tag"]` and keeps its
message, expiration and metadata. -/
theorem updateJot_partial_update_witness :
    ∃ j, (updateJot taggedStore 10 1 { tags := some ["new-tag"] }).2 =
        .updated j
      ∧ j.tags = ["new-tag"] ∧ j.message = "m" ∧ j.expiresAt = none
      ∧ j.metadata = [("k", "v")] :=
  (updateJot_partial_update taggedStore 10 1
      ⟨1, 1, "m", 5, 5, none, ["old-tag"], [("k", "v")]⟩ (by decide)).2.1
    { tags := some ["new-tag"] } ["new-tag"] rfl rfl rfl rfl (by decide)

/-- C6.  With default options `searchJots` excludes exactly the jots
whose `expiresAt` is non-null and not later than the query-time clock;
permanent jots always pass the expiration filter; with
`includeExpired := true` no expiration filtering happens. -/
theorem searchRows_expiration_filter (s : Store) (now : Int) (j : JotRow) :
    (j ∈ searchRows s now {} ↔
      j ∈ s.jots ∧ ¬ ∃ t, j.expiresAt = some t ∧ t ≤ now)
    ∧ (j ∈ searchRows s now { includeExpired := some true } ↔ j ∈ s.jots)
    ∧ (∀ o : SearchOptions,
        searchJots s now o = (searchRows s now o).map (mapJot s)) := by
  refine ⟨?_, ?_, fun o => rfl⟩
  · rw [searchRows]
    show j ∈ sortByCreatedDesc (dedupRows (List.filter _ s.jots)) ↔ _
    rw [mem_sortByCreatedDesc, mem_dedupRows, List.mem_filter]
    simp only [rowMatches]
    constructor
    · rintro ⟨hmem, hmatch⟩
      refine ⟨hmem, ?_⟩
      rintro ⟨t, hexp, hle⟩
      rw [hexp] at hmatch
      simp at hmatch
      omega
    · rintro ⟨hmem, hno⟩
      refine ⟨hmem, ?_⟩
      cases hexp : j.expiresAt with
      | none => simp [hexp]
      | some t =>
        have : ¬ t ≤ now := fun hle => hno ⟨t, hexp, hle⟩
        simp [hexp]
        omega
  · rw [searchRows]
    show j ∈ sortByCreatedDesc (dedupRows (List.filter _ s.jots)) ↔ _
    rw [mem_sortByCreatedDesc, mem_dedupRows, List.mem_filter]
    simp [rowMatches]

/-- Witness for C6: in the store with one expired (t=50) and one
permanent jot, at `now = 100` the expired jot is excluded by default and
included with `includeExpired := true`. -/
theorem searchRows_expiration_filter_witness :
    (⟨1, 1, "expired", 1, 1, some 50⟩ : JotRow) ∉
      searchRows searchStore 100 {}
    ∧ (⟨1, 1, "expired", 1, 1, some 50⟩ : JotRow) ∈
      searchRows searchStore 100 { includeExpired := some true } := by
  constructor
  · intro h
    obtain ⟨-, hno⟩ :=
      (searchRows_expiration_filter searchStore 100
        ⟨1, 1, "expired", 1, 1, some 50⟩).1.mp h
    exact hno ⟨50, rfl, by norm_num⟩
  · exact (searchRows_expiration_filter searchStore 100
      ⟨1, 1, "expired", 1, 1, some 50⟩).2.1.mpr (by decide)

/-- `jotExpired` as a proposition. -/
theorem jotExpired_iff (now : Int) (j : JotRow) :
    jotExpired now j = true ↔ ∃ t, j.expiresAt = some t ∧ t ≤ now := by
  cases hexp : j.expiresAt with
  | none => simp [jotExpired, hexp]
  | some t => simp [jotExpired, hexp]

/-- C7.  The spec says the sweep removes only jots whose expiration has
STRICTLY passed.  Counterexample: a jot expiring exactly at the
invocation instant (`expiresAt = 100`, `now = 100`) is removed by
`deleteExpiredJots` although its expiration has not strictly passed
(the SQL predicate is `expires_at <= ?`). -/
theorem deleteExpiredJots_boundary_counterexample :
    (⟨1, 1, "boundary", 0, 0, some 100⟩ : JotRow) ∈ boundaryStore.jots
    ∧ (⟨1, 1, "boundary", 0, 0, some 100⟩ : JotRow) ∉
        (deleteExpiredJots boundaryStore 100).1.jots
    ∧ ¬ ∃ t, (⟨1, 1, "boundary", 0, 0, some 100⟩ : JotRow).expiresAt = some t
        ∧ t < 100 := by
  decide

/-- C7 (amended).  `deleteExpiredJots` removes exactly the jots whose
`expiresAt` is non-null and `≤ now` (expired-or-expiring-this-instant),
returns their count, never touches permanent jots, and an immediate
second call removes nothing. -/
theorem deleteExpiredJots_spec (s : Store) (now : Int) :
    ((deleteExpiredJots s now).2 +
        (deleteExpiredJots s now).1.jots.length = s.jots.length)
    ∧ (∀ j, j ∈ (deleteExpiredJots s now).1.jots ↔
        j ∈ s.jots ∧ ¬ ∃ t, j.expiresAt = some t ∧ t ≤ now)
    ∧ (∀ j ∈ s.jots, j.expiresAt = none →
        j ∈ (deleteExpiredJots s now).1.jots)
    ∧ (deleteExpiredJots (deleteExpiredJots s now).1 now).2 = 0 := by
  have hmem : ∀ j, j ∈ (deleteExpiredJots s now).1.jots ↔
      j ∈ s.jots ∧ ¬ ∃ t, j.expiresAt = some t ∧ t ≤ now := by
    intro j
    show j ∈ s.jots.filter (fun j => ! jotExpired now j) ↔ _
    rw [List.mem_filter]
    constructor
    · rintro ⟨hj, hb⟩
      refine ⟨hj, fun hex => ?_⟩
      rw [← jotExpired_iff now j] at hex
      rw [hex] at hb
      simp at hb
    · rintro ⟨hj, hno⟩
      refine ⟨hj, ?_⟩
      cases h : jotExpired now j with
      | false => rfl
      | true => exact absurd ((jotExpired_iff now j).mp h) hno
  refine ⟨?_, hmem, ?_, ?_⟩
  · show (s.jots.filter (jotExpired now)).length +
      (s.jots.filter fun j => ! jotExpired now j).length = s.jots.length
    induction s.jots with
    | nil => rfl
    | cons a t ih =>
      cases h : jotExpired now a <;> simp [List.filter_cons, h] <;> omega
  · intro j hj hperm
    rw [hmem j]
    refine ⟨hj, ?_⟩
    rintro ⟨t, ht, -⟩
    rw [hperm] at ht
    exact Option.noConfusion ht
  · show ((deleteExpiredJots s now).1.jots.filter (jotExpired now)).length = 0
    rw [List.length_eq_zero]
    show ((s.jots.filter fun j => ! jotExpired now j).filter (jotExpired now)) = []
    rw [List.filter_filter, List.filter_eq_nil_iff.mpr]
    intro j hj
    cases h : jotExpired now j <;> simp [h]

/-- Witness for C7 (amended): in the store with one jot expired at t=50
and one permanent jot, the sweep at t=100 reports one deletion and keeps
the permanent jot. -/
theorem deleteExpiredJots_spec_witness :
    (deleteExpiredJots searchStore 100).2 +
        (deleteExpiredJots searchStore 100).1.jots.length = 2
    ∧ (⟨2, 1, "active", 2, 2, none⟩ : JotRow) ∈
        (deleteExpiredJots searchStore 100).1.jots :=
  ⟨((deleteExpiredJots_spec searchStore 100).1).trans (by decide),
   (deleteExpiredJots_spec searchStore 100).2.2.1
     ⟨2, 1, "active", 2, 2, none⟩ (by decide) rfl⟩

end Repo

namespace RepoV0

/-- C2.  `upsertContext` is upsert-by-name: when the name exists the
call returns the stored context unchanged and does not touch the store;
and for any two successive calls with the same name, the second returns
exactly the first call's context (same identity, same
repository/branch) and leaves the store as the first call left it —
regardless of the attribute values supplied the second time. -/
theorem upsertContext_idempotent (s : Store) (id1 id2 : String)
    (now1 now2 : Int) (n : String) (r1 b1 r2 b2 : Option String)
    (hfresh : ∀ c ∈ s.contexts, c.id ≠ id1) :
    (∀ e, getContextByName s n = some e →
      upsertContext s id1 now1 n r1 b1 = (s, some e))
    ∧ ∃ ctx, (upsertContext s id1 now1 n r1 b1).2 = some ctx
        ∧ upsertContext (upsertContext s id1 now1 n r1 b1).1 id2 now2 n r2 b2 =
            ((upsertContext s id1 now1 n r1 b1).1, some ctx) := by
  have hexisting : ∀ (idx : String) (nowx : Int) (rx bx : Option String) e,
      getContextByName s n = some e →
      upsertContext s idx nowx n rx bx = (s, some e) := by
    intro idx nowx rx bx e he
    unfold upsertContext
    split
    · rename_i e' heq
      rw [he] at heq
      injection heq with h
      rw [h]
    · rename_i heq
      rw [he] at heq
      exact Option.noConfusion heq
  refine ⟨hexisting id1 now1 r1 b1, ?_⟩
  cases hbn : getContextByName s n with
  | some e =>
    have h1 := hexisting id1 now1 r1 b1 e hbn
    refine ⟨e, by rw [h1], ?_⟩
    rw [h1]
    exact hexisting id2 now2 r2 b2 e hbn
  | none =>
    have hpre : s.contexts.find? (fun c => decide (c.name = n)) = none := by
      have := hbn
      rw [getContextByName, Option.map_eq_none'] at this
      exact this
    have hrowfind : (s.contexts ++
        [(⟨id1, n, orNull r1, orNull b1, now1, now1⟩ : ContextRow)]).find?
        (fun c => decide (c.id = id1)) =
        some ⟨id1, n, orNull r1, orNull b1, now1, now1⟩ := by
      rw [List.find?_append, List.find?_eq_none.mpr]
      · simp
      · intro c hc
        simp only [decide_eq_true_eq]
        exact hfresh c hc
    have hnamefind : (s.contexts ++
        [(⟨id1, n, orNull r1, orNull b1, now1, now1⟩ : ContextRow)]).find?
        (fun c => decide (c.name = n)) =
        some ⟨id1, n, orNull r1, orNull b1, now1, now1⟩ := by
      rw [List.find?_append, hpre]
      simp
    have h1 : upsertContext s id1 now1 n r1 b1 =
        ({ s with contexts := s.contexts ++
            [⟨id1, n, orNull r1, orNull b1, now1, now1⟩] },
         some (mapContext
           { s with contexts := s.contexts ++
               [⟨id1, n, orNull r1, orNull b1, now1, now1⟩] }
           ⟨id1, n, orNull r1, orNull b1, now1, now1⟩)) := by
      unfold upsertContext
      split
      · rename_i e' heq
        rw [hbn] at heq
        exact Option.noConfusion heq
      · rename_i heq
        rw [Prod.mk.injEq]
        refine ⟨rfl, ?_⟩
        rw [getContext]
        show ((s.contexts ++ [(⟨id1, n, orNull r1, orNull b1, now1, now1⟩ :
          ContextRow)]).find? (fun c => decide (c.id = id1))).map _ = _
        rw [hrowfind]
        rfl
    have h2 : upsertContext
        { s with contexts := s.contexts ++
            [⟨id1, n, orNull r1, orNull b1, now1, now1⟩] } id2 now2 n r2 b2 =
        ({ s with contexts := s.contexts ++
            [⟨id1, n, orNull r1, orNull b1, now1, now1⟩] },
         some (mapContext
           { s with contexts := s.contexts ++
               [⟨id1, n, orNull r1, orNull b1, now1, now1⟩] }
           ⟨id1, n, orNull r1, orNull b1, now1, now1⟩)) := by
      unfold upsertContext
      split
      · rename_i e' heq
        rw [show getContextByName
            { s with contexts := s.contexts ++
                [⟨id1, n, orNull r1, orNull b1, now1, now1⟩] } n =
            some (mapContext
              { s with contexts := s.contexts ++
                  [⟨id1, n, orNull r1, orNull b1, now1, now1⟩] }
              ⟨id1, n, orNull r1, orNull b1, now1, now1⟩) from by
          rw [getContextByName]
          show ((s.contexts ++ [(⟨id1, n, orNull r1, orNull b1, now1, now1⟩ :
            ContextRow)]).find? (fun c => decide (c.name = n))).map _ = _
          rw [hnamefind]
          rfl] at heq
        injection heq with h
        rw [h]
      · rename_i heq
        rw [show getContextByName
            { s with contexts := s.contexts ++
                [⟨id1, n, orNull r1, orNull b1, now1, now1⟩] } n =
            some (mapContext
              { s with contexts := s.contexts ++
                  [⟨id1, n, orNull r1, orNull b1, now1, now1⟩] }
              ⟨id1, n, orNull r1, orNull b1, now1, now1⟩) from by
          rw [getContextByName]
          show ((s.contexts ++ [(⟨id1, n, orNull r1, orNull b1, now1, now1⟩ :
            ContextRow)]).find? (fun c => decide (c.name = n))).map _ = _
          rw [hnamefind]
          rfl] at heq
        exact Option.noConfusion heq
    refine ⟨mapContext
        { s with contexts := s.contexts ++
            [⟨id1, n, orNull r1, orNull b1, now1, now1⟩] }
        ⟨id1, n, orNull r1, orNull b1, now1, now1⟩, by rw [h1], ?_⟩
    rw [h1]
    exact h2

/-- Witness for C2: a second upsert of the name "proj" with different
repository/branch returns the very context created by the first call
and leaves the store untouched. -/
theorem upsertContext_idempotent_witness :
    ∃ ctx, (upsertContext ⟨[], []⟩ "u-1" 3 "proj" (some "r1") (some "b1")).2 =
        some ctx
      ∧ upsertContext
          (upsertContext ⟨[], []⟩ "u-1" 3 "proj" (some "r1") (some "b1")).1
          "u-2" 9 "proj" (some "r2") (some "b2") =
        ((upsertContext ⟨[], []⟩ "u-1" 3 "proj" (some "r1") (some "b1")).1,
         some ctx) :=
  (upsertContext_idempotent ⟨[], []⟩ "u-1" "u-2" 3 9 "proj"
    (some "r1") (some "b1") (some "r2") (some "b2") (by decide)).2

end RepoV0

namespace Service

/-- C8.  TTL mapping of `calculateExpiration`: absent input yields the
default (14 days from now, exactly, hence within one second); `0` yields
`null` (permanent); a positive `d` yields `now + d·86400000` exactly; a
negative `d` yields a timestamp strictly in the past, accepted rather
than rejected. -/
theorem calculateExpiration_spec (now : Int) :
    calculateExpiration now none = some (now + DEFAULT_TTL_DAYS * 86400000)
    ∧ calculateExpiration now (some 0) = none
    ∧ (∀ d : Int, 0 < d →
        calculateExpiration now (some d) = some (now + d * 86400000))
    ∧ (∀ d : Int, d < 0 →
        ∃ t, calculateExpiration now (some d) = some t ∧ t < now) := by
  refine ⟨by norm_num [calculateExpiration, DEFAULT_TTL_DAYS], rfl, ?_, ?_⟩
  · intro d hd
    show (if d = 0 then none else some (now + d * 24 * 60 * 60 * 1000)) = _
    rw [if_neg (by omega)]
    congr 1
    omega
  · intro d hd
    refine ⟨now + d * 24 * 60 * 60 * 1000, ?_, by omega⟩
    show (if d = 0 then none else some (now + d * 24 * 60 * 60 * 1000)) = _
    rw [if_neg (by omega)]

/-- Witness for C8: `now = 1000`, `ttlDays = 2` and `ttlDays = -1`. -/
theorem calculateExpiration_spec_witness :
    calculateExpiration 1000 (some 2) = some (1000 + 2 * 86400000)
    ∧ ∃ t, calculateExpiration 1000 (some (-1)) = some t ∧ t < 1000 :=
  ⟨(calculateExpiration_spec 1000).2.2.1 2 (by norm_num),
   (calculateExpiration_spec 1000).2.2.2 (-1) (by norm_num)⟩

/-- C9.  The spec says auto-detection strips a TRAILING repository
suffix from the last path segment of the remote URL.  Counterexample:
for the remote `https://host/owner/foo.gitbar`, whose last segment
`foo.gitbar` does not end in `.git`, the code removes the embedded
first `.git` occurrence (`String.replace` replaces the first match) and
resolves the context name to `foobar`, not `foo.gitbar`. -/
theorem detectContextName_trailing_strip_counterexample :
    detectContextName (some "https://host/owner/foo.gitbar") (some "main")
      none = "foobar"
    ∧ lastPiece (jsSplit "https://host/owner/foo.gitbar" '/') = "foo.gitbar"
    ∧ jsEndsWith "foo.gitbar" ".git" = false
    ∧ "foobar" ≠ "foo.gitbar" := by
  decide

/-- C9 (amended).  The resolution chain, with the repository name
defined as the last path segment of the remote URL with the FIRST
occurrence of ".git" removed ("unknown" when that leaves nothing): an
empty explicit name falls through to auto-detection and a non-empty one
is used as is; with both git lookups succeeding the name is the
repository name alone on a primary branch (`main`/`master`) and
`"{repository}/{branch}"` otherwise; when git detection fails the
working directory's base name is used unless degenerate; otherwise the
fixed default "general". -/
theorem context_resolution_chain :
    (∀ remote branch cwd, chooseContextName (some "") remote branch cwd =
      detectContextName remote branch cwd)
    ∧ (∀ n remote branch cwd, n ≠ "" →
        chooseContextName (some n) remote branch cwd = n)
    ∧ (∀ u b cwd, b = "main" ∨ b = "master" →
        detectContextName (some u) (some b) cwd = repoNameOf u)
    ∧ (∀ u b cwd, b ≠ "main" → b ≠ "master" →
        detectContextName (some u) (some b) cwd = repoNameOf u ++ "/" ++ b)
    ∧ (∀ branch c, dirNameOf c ≠ "" → dirNameOf c ≠ "/" → dirNameOf c ≠ "\\" →
        detectContextName none branch (some c) = dirNameOf c)
    ∧ (∀ branch c, (dirNameOf c = "" ∨ dirNameOf c = "/" ∨ dirNameOf c = "\\") →
        detectContextName none branch (some c) = "general")
    ∧ (∀ branch, detectContextName none branch none = "general")
    ∧ repoNameOf "https://github.com/owner/repo.git" = "repo" := by
  refine ⟨fun remote branch cwd => rfl, ?_, ?_, ?_, ?_, ?_,
    fun branch => rfl, by decide⟩
  · intro n remote branch cwd hn
    show (if n = "" then _ else n) = n
    rw [if_neg hn]
  · intro u b cwd h
    show (if b = "main" ∨ b = "master" then repoNameOf u
      else repoNameOf u ++ "/" ++ b) = repoNameOf u
    rw [if_pos h]
  · intro u b cwd h1 h2
    show (if b = "main" ∨ b = "master" then repoNameOf u
      else repoNameOf u ++ "/" ++ b) = repoNameOf u ++ "/" ++ b
    rw [if_neg (by rintro (h | h) <;> [exact h1 h; exact h2 h])]
  · intro branch c h1 h2 h3
    show (if dirNameOf c ≠ "" ∧ dirNameOf c ≠ "/" ∧ dirNameOf c ≠ "\\"
      then dirNameOf c else "general") = dirNameOf c
    rw [if_pos ⟨h1, h2, h3⟩]
  · intro branch c h
    show (if dirNameOf c ≠ "" ∧ dirNameOf c ≠ "/" ∧ dirNameOf c ≠ "\\"
      then dirNameOf c else "general") = "general"
    rw [if_neg]
    rintro ⟨h1, h2, h3⟩
    rcases h with h | h | h
    · exact h1 h
    · exact h2 h
    · exact h3 h

/-- Witness for C9 (amended): a non-empty explicit name wins; a feature
branch is appended to the repository name; a failed git detection falls
back to the directory name. -/
theorem context_resolution_chain_witness :
    chooseContextName (some "my-ctx") none none none = "my-ctx"
    ∧ detectContextName (some "git@host:owner/proj.git") (some "dev") none =
        "proj/dev"
    ∧ detectContextName none none (some "/home/user/tool") = "tool" :=
  ⟨context_resolution_chain.2.1 "my-ctx" none none none (by decide),
   (context_resolution_chain.2.2.2.1 "git@host:owner/proj.git" "dev" none
      (by decide) (by decide)).trans (by decide),
   (context_resolution_chain.2.2.2.2.1 none "/home/user/tool"
      (by decide) (by decide) (by decide)).trans (by decide)⟩

end Service

namespace Repo

/-- C10.  The spec says malformed search input (non-positive limit,
unparseable date bound) fails fast with a descriptive error.
Counterexample: `limit = 0` and a `NaN` date bound are silently treated
as "filter absent" — the search returns the same non-empty result as
the unrestricted query instead of failing. -/
theorem searchJots_no_validation_counterexample :
    searchRows searchStore 100 { limit := some (.int 0) } =
      searchRows searchStore 100 {}
    ∧ (searchRows searchStore 100 { limit := some (.int 0) }).length = 1
    ∧ searchRows searchStore 100 { fromDate := some .nan } =
      searchRows searchStore 100 {} := by
  decide

/-- C10 (amended).  `searchJots` performs no input validation and never
raises on these inputs: a `limit` of `0` is falsy in JS so no LIMIT
clause is added; a negative limit is passed to SQLite, which treats a
negative LIMIT as unconstrained; a `NaN` date bound
(`new Date(bad).getTime()`) is falsy and the date filter is silently
dropped.  Each malformed call returns exactly the result of the query
without that filter. -/
theorem searchJots_malformed_input (s : Store) (now : Int)
    (o : SearchOptions) :
    searchJots s now { o with limit := some (.int 0) } =
      searchJots s now { o with limit := none }
    ∧ (∀ nlim : Int, nlim < 0 →
        searchJots s now { o with limit := some (.int nlim) } =
          searchJots s now { o with limit := none })
    ∧ searchJots s now { o with limit := some .nan } =
        searchJots s now { o with limit := none }
    ∧ searchJots s now { o with fromDate := some .nan } =
        searchJots s now { o with fromDate := none }
    ∧ searchJots s now { o with toDate := some .nan } =
        searchJots s now { o with toDate := none } := by
  refine ⟨rfl, ?_, rfl, ?_, ?_⟩
  · intro nlim hn
    show (applyLimit { o with limit := some (.int nlim) }
        (sortByCreatedDesc (dedupRows
          ((searchBaseRows s { o with limit := some (.int nlim) }).filter
            (rowMatches now { o with limit := some (.int nlim) }))))).map
        (mapJot s) = _
    have hL : ∀ rows, applyLimit { o with limit := some (.int nlim) } rows =
        rows := by
      intro rows
      show (if nlim = 0 then rows
        else if nlim < 0 then rows else rows.take nlim.toNat) = rows
      rw [if_neg (by omega), if_pos hn]
    rw [hL]
    rfl
  · rfl
  · rfl

/-- Witness for C10 (amended): a limit of `-5` on the two-jot store
yields the same rows as no limit at all. -/
theorem searchJots_malformed_input_witness :
    searchJots searchStore 100 { limit := some (.int (-5)) } =
      searchJots searchStore 100 { limit := none } :=
  (searchJots_malformed_input searchStore 100 {}).2.1 (-5) (by norm_num)

end Repo

end JotMcp
